import Mathlib

/-!
Shallow embedding of the overcast-downloader repository.

Sources embedded here:
* src/download_overcast_podcasts.py - the main pipeline (OPML-driven
  episode downloader with a sqlite ledger, collision handling, metadata
  files and dated RSS-feed snapshots).
* src/download.py - the standalone atomic single-file fetcher with a
  tenacity retry decorator.

Modelling conventions:
* The filesystem is an association list from path strings to file
  contents.  Audio files and feed snapshots hold raw bytes (modelled as
  `String`); episode metadata files hold the structured JSON blob that
  `download_episode` serialises (an `Episode` plus the chosen filename).
* The sqlite database `<download_dir>/overcast.db` is modelled by the
  `State.db` field: `none` means the file does not exist, `some none`
  means the file exists but the `downloaded_episodes` table does not,
  `some (some ids)` means the table exists and holds `ids`.
* The network is a function from URL to `Option String` (`none` means the
  fetch raises).  Every operation appends events to an event trace so
  that ordering / counting claims (network calls, ledger marks) can be
  stated.
* `datetime.datetime.now().strftime("%Y-%m-%d")` is passed in as the
  `today` parameter.
-/

set_option maxRecDepth 10000

namespace Overcast

/-- Association-list lookup, first binding wins (models a filesystem path lookup). -/
def fsLookup (fs : List (String × α)) (p : String) : Option α :=
  match fs with
  | [] => none
  | (q, d) :: rest => if q = p then some d else fsLookup rest p

/-- Write `c` at path `p`, replacing an existing binding in place. -/
def fsWrite (fs : List (String × α)) (p : String) (c : α) : List (String × α) :=
  match fs with
  | [] => [(p, c)]
  | (q, d) :: rest => if q = p then (p, c) :: rest else (q, d) :: fsWrite rest p c

/-- Delete the binding at path `p` (models `os.unlink`). -/
def fsErase (fs : List (String × α)) (p : String) : List (String × α) :=
  match fs with
  | [] => []
  | (q, d) :: rest => if q = p then rest else (q, d) :: fsErase rest p

/-- One episode entry produced by `get_episodes`: the per-episode attributes
together with its podcast's attributes (the nested `podcast` dict). -/
structure Episode where
  podcastTitle : String
  podcastXmlUrl : String
  publishedDate : String
  title : String
  url : String
  overcastId : String
  overcastUrl : String
  enclosureUrl : String
deriving DecidableEq, Repr

/-- File contents: raw downloaded bytes, or the serialised JSON metadata blob
written by `download_episode` (the episode record plus `episode["filename"]`). -/
inductive Content
  | bytes (s : String)
  | meta (e : Episode) (filename : String)
deriving DecidableEq, Repr

/-- Observable side effects, recorded in order of occurrence. -/
inductive Ev
  | fetch (url : String) (ok : Bool)
  | writeFile (path : String)
  | writeMeta (path : String)
  | unlinkFile (path : String)
  | markEv (id : String)
deriving DecidableEq, Repr

/-- The persistent world state threaded through the pipeline.
`rootExists` is whether the `download_dir` directory exists;
`db` models the `overcast.db` file as described in the header comment. -/
structure State where
  fs : List (String × Content)
  rootExists : Bool
  db : Option (Option (List String))
  events : List Ev
deriving DecidableEq, Repr

/-- Number of network fetches recorded in a state (attempted and successful). -/
def netCalls (s : State) : Nat :=
  (s.events.filter (fun ev => match ev with | .fetch _ _ => true | _ => false)).length

/-- Ids stored in the `downloaded_episodes` table (empty when the db file or
the table is missing). -/
def tableIds (s : State) : List String :=
  match s.db with
  | some (some ids) => ids
  | _ => []

inductive SqlErr
  | unableToOpen    -- sqlite3.OperationalError "unable to open database file"
  | integrityError  -- sqlite3.IntegrityError (PRIMARY KEY uniqueness violation)
deriving DecidableEq, Repr

/-- `sqlite3.connect(os.path.join(download_dir, "overcast.db"))`.
Opening an existing database file always succeeds; opening a missing file
creates an empty database (no tables) provided the parent directory exists,
and otherwise raises "unable to open database file".  Returns the state of
the `downloaded_episodes` table alongside the (possibly updated) state. -/
def connectDb (s : State) : Except SqlErr (Option (List String) × State) :=
  match s.db with
  | some tbl => .ok (tbl, s)
  | none =>
    if s.rootExists then .ok (none, { s with db := some none })
    else .error .unableToOpen

/-- Lines 114-136 of download_overcast_podcasts.py.
`except sqlite3.OperationalError` around `connect` returns `False` for
"unable to open database file"; the `SELECT` returns `False` when the
table is missing; otherwise the result of the membership query. -/
def has_episode_been_downloaded_already (e : Episode) (s : State) : Bool × State :=
  match connectDb s with
  | .error _ => (false, s)
  | .ok (none, s1) => (false, s1)
  | .ok (some ids, s1) => (ids.contains e.overcastId, s1)

/-- Lines 139-156 of download_overcast_podcasts.py.
`CREATE TABLE` with the "table ... already exists" error swallowed, then a
plain `INSERT` of the id into a PRIMARY KEY column, so inserting an id that
is already present raises `sqlite3.IntegrityError`.  (On that error the
state effects of the statement are not observable to the caller, who
propagates the exception.) -/
def mark_episode_as_downloaded (e : Episode) (s : State) : Except SqlErr State :=
  match connectDb s with
  | .error er => .error er
  | .ok (tbl, s1) =>
    let ids := tbl.getD []
    if ids.contains e.overcastId then .error .integrityError
    else .ok { s1 with db := some (some (ids ++ [e.overcastId])),
                       events := s1.events ++ [Ev.markEv e.overcastId] }

/-- One pass of Python `str.replace`: replace every (non-overlapping,
left-to-right) occurrence of `pat` in the subject by `rep`.  The fuel is the
subject length (each step consumes at least one character), which keeps the
recursion structural so that the kernel can evaluate it. -/
def replaceFuel (pat rep : List Char) : Nat → List Char → List Char
  | 0, l => l
  | _ + 1, [] => []
  | n + 1, x :: xs =>
    if pat.isPrefixOf (x :: xs) && !pat.isEmpty then
      rep ++ replaceFuel pat rep n (List.drop (pat.length - 1) xs)
    else x :: replaceFuel pat rep n xs

/-- Python `subject.replace(pat, rep)`. -/
def strReplace (subject pat rep : String) : String :=
  ⟨replaceFuel pat.data rep.data subject.data.length subject.data⟩

/-- Characters before the first occurrence of `c` (the whole list if absent). -/
def takeUntil (c : Char) : List Char → List Char
  | [] => []
  | x :: xs => if x = c then [] else x :: takeUntil c xs

/-- Suffix starting at the first occurrence of `c` (empty if absent). -/
def dropUntil (c : Char) : List Char → List Char
  | [] => []
  | x :: xs => if x = c then x :: xs else dropUntil c xs

/-- Characters after the first `://` separator, if present. -/
def afterSchemeSep : List Char → Option (List Char)
  | ':' :: '/' :: '/' :: rest => some rest
  | _ :: rest => afterSchemeSep rest
  | [] => none

/-- `startswith` over the underlying character lists. -/
def strStartsWith (s pre : String) : Bool :=
  pre.data.isPrefixOf s.data

/-- `endswith` over the underlying character lists. -/
def strEndsWith (s suf : String) : Bool :=
  suf.data.reverse.isPrefixOf s.data.reverse

/-- Lexicographic (code-point) comparison of character lists, as Python
compares strings and as `sorted` orders file names. -/
def strLtB : List Char → List Char → Bool
  | [], [] => false
  | [], _ :: _ => true
  | _ :: _, [] => false
  | a :: as, b :: bs =>
    if a.toNat < b.toNat then true
    else if b.toNat < a.toNat then false
    else strLtB as bs

/-- Lexicographic string comparison. -/
def strLt (a b : String) : Bool := strLtB a.data b.data

/-- Line 159-160: `_escape` replaces `:` and `/` by `-`
(`s.replace(":", "-").replace("/", "-")`). -/
def escapeTitle (s : String) : String :=
  strReplace (strReplace s ":" "-") "/" "-"

/-- The `path` component returned by `urllib.parse.urlparse`: strip the
fragment (first `#`) and the query (first `?`); when a `://` separator is
present the path starts at the first `/` after the netloc, otherwise the
remaining text is the path. -/
def urlPath (url : String) : String :=
  let noFrag := takeUntil '#' url.data
  let noQuery := takeUntil '?' noFrag
  match afterSchemeSep noQuery with
  | none => ⟨noQuery⟩
  | some rest => ⟨dropUntil '/' rest⟩

/-- The extension component of `os.path.splitext`: everything from the last
dot of the basename, except that leading dots of the basename never start
an extension. -/
def splitextExt (p : String) : String :=
  let base := (p.data.reverse.takeWhile (fun c => c ≠ '/')).reverse
  let rest := base.dropWhile (fun c => c = '.')
  if rest.contains '.' then ⟨'.' :: (rest.reverse.takeWhile (fun c => c ≠ '.')).reverse⟩
  else ""

/-- Lines 163-169: `get_filename` builds `_escape(title) + extension`,
with the extension taken from the URL's path component. -/
def get_filename (downloadUrl title : String) : String :=
  escapeTitle title ++ splitextExt (urlPath downloadUrl)

/-- Lines 172-191: `download_url` fetches `url` with `urlretrieve` into a
temporary file and renames it onto `path`.  Any exception from the fetch is
caught and printed, and the function returns normally without touching
`path`; on success the fetched body ends up at `path`. -/
def download_url (net : String → Option String) (url path : String) (s : State) : State :=
  match net url with
  | none => { s with events := s.events ++ [Ev.fetch url false] }
  | some body =>
    { s with fs := fsWrite s.fs path (.bytes body),
             events := s.events ++ [Ev.fetch url true, Ev.writeFile path] }

/-- A path matched by `glob.glob(os.path.join(podcast_dir, "feed.*.xml"))`:
it extends `podcast_dir ++ "/feed."`, ends in `".xml"`, and the part matched
by `*` contains no path separator. -/
def isFeedSnapshotPath (podcastDir p : String) : Bool :=
  strStartsWith p (podcastDir ++ "/feed.") && strEndsWith p ".xml"
    && !((p.data.drop (podcastDir ++ "/feed.").length).contains '/')

/-- Insert into a lexically sorted list of strings (helper for `sortStrings`). -/
def insertSorted (x : String) : List String → List String
  | [] => [x]
  | y :: ys => if strLt y x then y :: insertSorted x ys else x :: y :: ys

/-- `sorted(...)` on path strings (lexicographic). -/
def sortStrings : List String → List String
  | [] => []
  | x :: xs => insertSorted x (sortStrings xs)

/-- Lines 308-313: the pruning while-loop of `_save_rss_feed`, applied to the
reversed sorted snapshot list (head = most recent snapshot).  While at least
two snapshots remain and `filecmp.cmp` finds the last two byte-identical, the
most recent one is unlinked. -/
def pruneFeedsLoop (s : State) : List String → State
  | pLast :: pPrev :: rest =>
    match fsLookup s.fs pPrev, fsLookup s.fs pLast with
    | some cPrev, some cLast =>
      if cPrev = cLast then
        pruneFeedsLoop
          { s with fs := fsErase s.fs pLast, events := s.events ++ [Ev.unlinkFile pLast] }
          (pPrev :: rest)
      else s
    | _, _ => s
  | _ => s

/-- Lines 296-304 of `_save_rss_feed`: fetch the feed to `feed.<today>.xml`
unless that dated snapshot already exists. -/
def saveRssFeedFetch (net : String → Option String) (today title xmlUrl downloadDir : String)
    (s : State) : State :=
  if (fsLookup s.fs (downloadDir ++ "/" ++ escapeTitle title ++ "/feed." ++ today
      ++ ".xml")).isSome then s
  else download_url net xmlUrl
    (downloadDir ++ "/" ++ escapeTitle title ++ "/feed." ++ today ++ ".xml") s

/-- The sorted `glob.glob(os.path.join(podcast_dir, "feed.*.xml"))` of a state. -/
def feedGlob (podcastDir : String) (s : State) : List String :=
  sortStrings ((s.fs.filter (fun pc => isFeedSnapshotPath podcastDir pc.1)).map
    (fun pc => pc.1))

/-- Lines 290-313: the body of `_save_rss_feed` (ignoring the lru_cache,
handled by the caller): fetch the feed to `feed.<today>.xml` unless that
dated snapshot already exists, then glob, sort, and prune the tail. -/
def saveRssFeedOnce (net : String → Option String) (today title xmlUrl downloadDir : String)
    (s : State) : State :=
  pruneFeedsLoop (saveRssFeedFetch net today title xmlUrl downloadDir s)
    (feedGlob (downloadDir ++ "/" ++ escapeTitle title)
      (saveRssFeedFetch net today title xmlUrl downloadDir s)).reverse

/-- The per-run memo of `functools.lru_cache` on `_save_rss_feed`, keyed by
`(title, xml_url)` (the `download_dir` component of the key is fixed within
a run). -/
abbrev FeedMemo := List (String × String)

/-- Lines 281-291: `save_rss_feed` with the lru_cache: a repeated call with
an already-seen key is a no-op. -/
def save_rss_feed (net : String → Option String) (today : String) (e : Episode)
    (downloadDir : String) (s : State) (memo : FeedMemo) : State × FeedMemo :=
  if memo.contains (e.podcastTitle, e.podcastXmlUrl) then (s, memo)
  else
    (saveRssFeedOnce net today e.podcastTitle e.podcastXmlUrl downloadDir s,
      memo ++ [(e.podcastTitle, e.podcastXmlUrl)])

inductive Err
  | sqlError (e : SqlErr)
  | metadataUnreadable (path : String)   -- open(json_path) raised (file missing)
  | metadataUnparseable (path : String)  -- json.load could not parse the file
deriving DecidableEq, Repr

/-- Lines 224-267 of `download_episode`: decide where the audio goes.
Returns the updated state together with the final `filename` and
`json_path` used by the metadata-writing tail.  Mirrors the source:

* no file at the candidate path: download there directly;
* file present and its metadata unreadable or unparseable: re-raise;
* same `overcast_id` recorded: nothing to download;
* different id: disambiguate the name via `filename.replace(".mp3",
  "_<id>.mp3")`, download there, then `filecmp.cmp` against the original,
  unlinking the new file when byte-identical (a `FileNotFoundError` from
  the comparison is swallowed). -/
def resolveAndDownload (net : String → Option String) (e : Episode)
    (podcastDir filename0 downloadPath0 jsonPath0 : String) (s : State) :
    Except Err (State × String × String) :=
  if (fsLookup s.fs downloadPath0).isSome then
    match fsLookup s.fs jsonPath0 with
    | none => .error (.metadataUnreadable jsonPath0)
    | some (.bytes _) => .error (.metadataUnparseable jsonPath0)
    | some (.meta cached _) =>
      if cached.overcastId = e.overcastId then
        -- Already downloaded and it's the same episode.
        .ok (s, filename0, jsonPath0)
      else
        let filename1 := strReplace filename0 ".mp3" ("_" ++ e.overcastId ++ ".mp3")
        let downloadPath1 := podcastDir ++ "/" ++ filename1
        let jsonPath1 := downloadPath1 ++ ".json"
        let s1 := download_url net e.enclosureUrl downloadPath1 s
        match fsLookup s1.fs downloadPath1, fsLookup s1.fs downloadPath0 with
        | some cNew, some cOld =>
          if cNew = cOld then
            .ok ({ s1 with fs := fsErase s1.fs downloadPath1,
                           events := s1.events ++ [Ev.unlinkFile downloadPath1] },
                 filename1, jsonPath1)
          else .ok (s1, filename1, jsonPath1)
        | _, _ => .ok (s1, filename1, jsonPath1)
  else
    .ok (download_url net e.enclosureUrl downloadPath0 s, filename0, jsonPath0)

/-- Lines 269-278 of `download_episode`: set `episode["filename"]`, write the
JSON metadata blob, archive the RSS feed, and mark the episode in the ledger. -/
def finishEpisode (net : String → Option String) (today : String) (e : Episode)
    (downloadDir filenameF jsonPathF : String) (s : State) (memo : FeedMemo) :
    Except Err (State × FeedMemo) :=
  let s3 := { s with fs := fsWrite s.fs jsonPathF (.meta e filenameF),
                     events := s.events ++ [Ev.writeMeta jsonPathF] }
  let sm := save_rss_feed net today e downloadDir s3 memo
  match mark_episode_as_downloaded e sm.1 with
  | .error er => .error (.sqlError er)
  | .ok s5 => .ok (s5, sm.2)

/-- Lines 194-278: `download_episode`.  Returns early when the ledger already
records the episode; otherwise computes the candidate paths, runs the
collision logic, and finishes with metadata write, feed archive and ledger
mark.  `os.makedirs(podcast_dir, exist_ok=True)` also creates `download_dir`,
modelled by setting `rootExists`. -/
def download_episode (net : String → Option String) (today : String) (e : Episode)
    (downloadDir : String) (s0 : State) (memo : FeedMemo) :
    Except Err (State × FeedMemo) :=
  match has_episode_been_downloaded_already e s0 with
  | (true, s) => .ok (s, memo)
  | (false, s) =>
    let filename0 := get_filename e.enclosureUrl e.title
    let podcastDir := downloadDir ++ "/" ++ escapeTitle e.podcastTitle
    let s1 : State := { s with rootExists := true }
    let downloadPath0 := podcastDir ++ "/" ++ filename0
    let jsonPath0 := podcastDir ++ "/" ++ escapeTitle e.title ++ ".json"
    match resolveAndDownload net e podcastDir filename0 downloadPath0 jsonPath0 s1 with
    | .error er => .error er
    | .ok (s2, filenameF, jsonPathF) =>
      finishEpisode net today e downloadDir filenameF jsonPathF s2 memo

/-- Lines 331-332: the `__main__` loop.  Each episode is processed in turn;
an uncaught exception aborts the whole run. -/
def runEpisodes (net : String → Option String) (today downloadDir : String) :
    List Episode → State × FeedMemo → Except Err (State × FeedMemo)
  | [], sm => .ok sm
  | e :: rest, sm =>
    match download_episode net today e downloadDir sm.1 sm.2 with
    | .error er => .error er
    | .ok sm' => runEpisodes net today downloadDir rest sm'

/-- One full run of the pipeline over an export: process every episode with a
fresh (empty) per-process feed memo. -/
def runPipeline (net : String → Option String) (today downloadDir : String)
    (eps : List Episode) (s : State) : Except Err State :=
  match runEpisodes net today downloadDir eps (s, []) with
  | .error er => .error er
  | .ok sm => .ok sm.1

/-!  Pure model of the snapshot-pruning step of `_save_rss_feed` (lines
290-313), over the list of dated snapshots of one podcast, kept sorted by
date.  `pruneSnapsRev` is the while-loop on the reversed (most recent first)
list, exactly as `pruneFeedsLoop` above but on `(date, content)` pairs. -/

/-- The pruning while-loop on the reversed snapshot list: while the two most
recent snapshots have byte-identical contents, drop the most recent. -/
def pruneSnapsRev : List (String × String) → List (String × String)
  | x :: a :: rest => if a.2 = x.2 then pruneSnapsRev (a :: rest) else x :: a :: rest
  | l => l

/-- Pruning on the chronologically sorted snapshot list. -/
def pruneSnaps (l : List (String × String)) : List (String × String) :=
  (pruneSnapsRev l.reverse).reverse

/-- Insert a dated snapshot into a date-sorted snapshot list (the new file
appears at its lexical position in the sorted glob). -/
def insertSnap (x : String × String) : List (String × String) → List (String × String)
  | [] => [x]
  | y :: ys => if strLt y.1 x.1 then y :: insertSnap x ys else x :: y :: ys

/-- One invocation of the feed snapshot archiver for a podcast, at date
`today` with fetched feed content `content`: skip the fetch when the dated
snapshot already exists, then prune the tail of the sorted snapshot list. -/
def archiveDay (snaps : List (String × String)) (today content : String) :
    List (String × String) :=
  if snaps.any (fun p => p.1 = today) then pruneSnaps snaps
  else pruneSnaps (insertSnap (today, content) snaps)

end Overcast

namespace AtomicDownload

/-!  Shallow embedding of src/download.py: `download_file`, decorated with
`tenacity.retry(retry=retry_if_exception_type(httpx.HTTPError) |
retry_if_exception_type(urllib3.exceptions.HTTPError),
stop=stop_after_attempt(10), wait=wait_fixed(60))`. -/

/-- Exceptions that can escape the body of `download_file`.
`httpxStatus code` is `httpx.HTTPStatusError` as raised by
`resp.raise_for_status()`; it is a subclass of `httpx.HTTPError`.
`osError` stands for any non-HTTP exception (for example a local I/O
failure while writing the temporary file). -/
inductive NetErr
  | httpxTransport
  | httpxStatus (code : Nat)
  | urllib3Http
  | osError
deriving DecidableEq, Repr

/-- Outcome of `client.stream("GET", url)` together with the body iteration:
either the full chunk list, or an error response status, or an exception
after some chunks have already been yielded and written. -/
inductive FetchResult
  | success (chunks : List String)
  | statusFail (code : Nat)
  | interrupted (written : List String) (e : NetErr)
deriving DecidableEq, Repr

/-- `retry_if_exception_type(httpx.HTTPError) |
retry_if_exception_type(urllib3.exceptions.HTTPError)`: which exceptions
the tenacity decorator retries on.  `httpx.HTTPStatusError` (for example a
404) is a subclass of `httpx.HTTPError`, so it is retried. -/
def retryable : NetErr → Bool
  | .httpxTransport => true
  | .httpxStatus _ => true
  | .urllib3Http => true
  | .osError => false

/-- Lines 18-65: one (undecorated) call of `download_file`.
`tmpToken` models the `uuid.uuid4()` value.  Returns the filesystem after
the call together with the function result (`.ok path` or the raised
exception).  On `statusFail`, `raise_for_status` fires before the temporary
file is opened; on `interrupted`, the chunks yielded so far have been
written to the temporary file, which is abandoned. -/
def download_file (net : String → FetchResult) (url path tmpToken : String)
    (fs : List (String × String)) :
    List (String × String) × Except NetErr String :=
  if (Overcast.fsLookup fs path).isSome then (fs, .ok path)
  else
    let tmpPath := path ++ "." ++ tmpToken ++ ".tmp"
    match net url with
    | .statusFail code => (fs, .error (.httpxStatus code))
    | .interrupted written e => (Overcast.fsWrite fs tmpPath (String.join written), .error e)
    | .success chunks =>
      let body := String.join chunks
      let fs1 := Overcast.fsWrite fs tmpPath body
      -- os.rename(tmp_path, path)
      (Overcast.fsWrite (Overcast.fsErase fs1 tmpPath) path body, .ok path)

/-- Result of running the tenacity-decorated call: final filesystem, final
result, number of attempts actually made, and total seconds spent in
`wait_fixed(60)` pauses between attempts. -/
structure RetryOutcome where
  fs : List (String × String)
  result : Except NetErr String
  attempts : Nat
  waited : Nat
deriving Repr

/-- The tenacity driver loop: `fuel` is the number of attempts still allowed
(including the current one), `made` the number already made, `waited` the
seconds already spent waiting.  A retryable exception with attempts left
triggers a 60-second wait and another attempt; otherwise the exception
surfaces.  The `fuel = 0` arm is never reached from `download_file_retrying`
(which starts with fuel 10 and stops when fuel runs out). -/
def retryRec (net : Nat → String → FetchResult) (tokens : Nat → String)
    (url path : String) : Nat → Nat → Nat → List (String × String) → RetryOutcome
  | 0, made, waited, fs => { fs := fs, result := .error .osError, attempts := made, waited := waited }
  | fuel + 1, made, waited, fs =>
    match download_file (net made) url path (tokens made) fs with
    | (fs1, .ok p) => { fs := fs1, result := .ok p, attempts := made + 1, waited := waited }
    | (fs1, .error e) =>
      if retryable e then
        match fuel with
        | 0 => { fs := fs1, result := .error e, attempts := made + 1, waited := waited }
        | _ + 1 => retryRec net tokens url path fuel (made + 1) (waited + 60) fs1
      else { fs := fs1, result := .error e, attempts := made + 1, waited := waited }

/-- `stop_after_attempt(10)`: the decorated `download_file` as called by
clients.  `net i` / `tokens i` are the transport behaviour and the fresh
uuid of the i-th attempt (0-based). -/
def download_file_retrying (net : Nat → String → FetchResult) (tokens : Nat → String)
    (url path : String) (fs : List (String × String)) : RetryOutcome :=
  retryRec net tokens url path 10 0 0 fs

/-- `os.path.dirname`, over the character list of the path: everything
before the last `/` (empty when there is no `/`).  Python's dirname keeps
no trailing separator; this model keeps the text up to and excluding the
final `/`, which is enough to compare directories of two paths. -/
def dirname (p : String) : List Char :=
  (((p.data.reverse).dropWhile (fun c => c ≠ '/')).drop 1).reverse

end AtomicDownload

namespace Overcast

/-!  ## Concrete scenario data used by claim-level instances

These model the test scenarios of the specification (two distinct episodes
resolving to the same filename, byte-identical duplicates, a source that has
vanished, a corrupt metadata file). -/

/-- Episode with id `A`, an `.mp3` enclosure, podcast `P`. -/
def epA : Episode :=
  { podcastTitle := "P", podcastXmlUrl := "http://h/f", publishedDate := "d",
    title := "Episode 1", url := "u", overcastId := "A", overcastUrl := "o",
    enclosureUrl := "http://h/ep.mp3" }

/-- Same episode data as `epA` but with the distinct identifier `B`. -/
def epB : Episode := { epA with overcastId := "B" }

/-- Episode with id `A` and an `.m4a` enclosure. -/
def epA4 : Episode := { epA with enclosureUrl := "http://h/ep.m4a" }

/-- Same as `epA4` with identifier `B`. -/
def epB4 : Episode := { epA4 with overcastId := "B" }

/-- Episode with id `C` whose audio URL is no longer served. -/
def epC : Episode := { epA with overcastId := "C", enclosureUrl := "http://h/gone.mp3" }

/-- Transport where the `.mp3` audio and the feed are served. -/
def netOk : String → Option String := fun u =>
  if u = "http://h/ep.mp3" then some "AUDIO"
  else if u = "http://h/f" then some "FEED" else none

/-- Transport where the `.m4a` audio (different bytes than what is on disk)
and the feed are served. -/
def netM4a : String → Option String := fun u =>
  if u = "http://h/ep.m4a" then some "NEW"
  else if u = "http://h/f" then some "FEED" else none

/-- Transport where only the feed is served; every audio fetch fails. -/
def netFeedOnly : String → Option String := fun u =>
  if u = "http://h/f" then some "FEED" else none

/-- Archive state after episode `A` was fully archived: audio and metadata on
disk, ledger holding `A`. -/
def sColl : State :=
  { fs := [("dl/P/Episode 1.mp3", .bytes "AUDIO"),
           ("dl/P/Episode 1.json", .meta epA "Episode 1.mp3")],
    rootExists := true, db := some (some ["A"]), events := [] }

/-- Same archive state for the `.m4a` variant, with audio bytes `OLD`. -/
def sColl4 : State :=
  { fs := [("dl/P/Episode 1.m4a", .bytes "OLD"),
           ("dl/P/Episode 1.json", .meta epA4 "Episode 1.m4a")],
    rootExists := true, db := some (some ["A"]), events := [] }

/-- A fresh archive: directory exists, nothing downloaded, no ledger file. -/
def sFresh : State := { fs := [], rootExists := true, db := none, events := [] }

/-- An archive where the audio file of episode `A` exists but its metadata
file is missing (unreadable cached metadata). -/
def sCorrupt : State :=
  { fs := [("dl/P/Episode 1.mp3", .bytes "AUDIO")],
    rootExists := true, db := none, events := [] }

/-- Final state of processing episode `B` against the byte-identical
collision scenario (claim C7). -/
def c7state : Option State :=
  (download_episode netOk "2024-01-02" epB "dl" sColl []).toOption.map Prod.fst

/-- Final state of processing the `.m4a` collision with different bytes
(claim C6). -/
def c6state : Option State :=
  (download_episode netM4a "2024-01-02" epB4 "dl" sColl4 []).toOption.map Prod.fst

/-- Final state of processing episode `C` whose audio download fails
(claim C3). -/
def c3failState : Option State :=
  (download_episode netFeedOnly "2024-01-02" epC "dl" sFresh []).toOption.map Prod.fst

/-- Final state of a successful fresh download of episode `A` (claim C3). -/
def c3okState : Option State :=
  (download_episode netOk "2024-01-02" epA "dl" sFresh []).toOption.map Prod.fst

/-- The state produced by processing episode `C` (audio fetch fails) from
`sFresh`: metadata and feed snapshot written, episode marked, audio absent. -/
def c3finalState : State :=
  { fs := [("dl/P/Episode 1.json", .meta epC "Episode 1.mp3"),
           ("dl/P/feed.2024-01-02.xml", .bytes "FEED")],
    rootExists := true, db := some (some ["C"]),
    events := [.fetch "http://h/gone.mp3" false, .writeMeta "dl/P/Episode 1.json",
               .fetch "http://h/f" true, .writeFile "dl/P/feed.2024-01-02.xml",
               .markEv "C"] }

/-- Events other than a ledger mark. -/
def notMark : Ev → Bool
  | .markEv _ => false
  | _ => true

/-!  ## Helper lemmas about the association-list filesystem -/

theorem fsLookup_fsWrite (fs : List (String × α)) (p : String) (c : α) (q : String) :
    fsLookup (fsWrite fs p c) q = if p = q then some c else fsLookup fs q := by
  induction fs with
  | nil => simp [fsWrite, fsLookup]
  | cons hd tl ih =>
    obtain ⟨a, b⟩ := hd
    by_cases hap : a = p
    · subst hap
      by_cases haq : a = q <;> simp [fsWrite, fsLookup, haq]
    · by_cases haq : a = q
      · subst haq
        have hpq : p ≠ a := fun h => hap h.symm
        simp [fsWrite, fsLookup, hap, hpq]
      · simp [fsWrite, fsLookup, hap, haq, ih]

theorem fsLookup_fsErase_of_ne (fs : List (String × α)) (p q : String) (h : p ≠ q) :
    fsLookup (fsErase fs p) q = fsLookup fs q := by
  induction fs with
  | nil => simp [fsErase, fsLookup]
  | cons hd tl ih =>
    obtain ⟨a, b⟩ := hd
    by_cases hap : a = p
    · subst hap
      have haq : a ≠ q := h
      simp [fsErase, fsLookup, haq]
    · by_cases haq : a = q
      · have hqp : ¬q = p := fun hq => hap (haq.trans hq)
        simp [fsErase, fsLookup, haq, hqp]
      · simp [fsErase, fsLookup, hap, haq, ih]

theorem fsErase_fsWrite_of_none (fs : List (String × α)) (p : String) (c : α)
    (h : fsLookup fs p = none) : fsErase (fsWrite fs p c) p = fs := by
  induction fs with
  | nil => simp [fsWrite, fsErase]
  | cons hd tl ih =>
    obtain ⟨a, b⟩ := hd
    simp only [fsLookup] at h
    by_cases hap : a = p
    · simp [hap] at h
    · simp only [fsWrite, fsErase, if_neg hap]
      rw [ih (by simpa [hap] using h)]

/-!  ## State-preservation lemmas for the pipeline operations -/

theorem download_url_state (net : String → Option String) (u p : String) (s : State) :
    (download_url net u p s).db = s.db
    ∧ (download_url net u p s).rootExists = s.rootExists
    ∧ ∃ evs, (download_url net u p s).events = s.events ++ evs ∧ evs.all notMark = true := by
  cases h : net u
  · exact ⟨by simp [download_url, h], by simp [download_url, h],
      [Ev.fetch u false], by simp [download_url, h], by simp [notMark]⟩
  · exact ⟨by simp [download_url, h], by simp [download_url, h],
      [Ev.fetch u true, Ev.writeFile p], by simp [download_url, h], by simp [notMark]⟩

theorem pruneFeedsLoop_state (l : List String) : ∀ s : State,
    (pruneFeedsLoop s l).db = s.db
    ∧ (pruneFeedsLoop s l).rootExists = s.rootExists
    ∧ ∃ evs, (pruneFeedsLoop s l).events = s.events ++ evs ∧ evs.all notMark = true := by
  induction l with
  | nil => exact fun s => ⟨rfl, rfl, [], by simp [pruneFeedsLoop], rfl⟩
  | cons p1 t ih =>
    intro s
    cases t with
    | nil => exact ⟨rfl, rfl, [], by simp [pruneFeedsLoop], rfl⟩
    | cons p2 rest =>
      simp only [pruneFeedsLoop]
      cases h1 : fsLookup s.fs p2 <;> cases h2 : fsLookup s.fs p1
      · exact ⟨rfl, rfl, [], by simp, rfl⟩
      · exact ⟨rfl, rfl, [], by simp, rfl⟩
      · exact ⟨rfl, rfl, [], by simp, rfl⟩
      · rename_i cPrev cLast
        by_cases he : cPrev = cLast
        · simp only [if_pos he]
          obtain ⟨hdb, hroot, evs, hev, hall⟩ :=
            ih { s with fs := fsErase s.fs p1, events := s.events ++ [Ev.unlinkFile p1] }
          refine ⟨hdb, hroot, Ev.unlinkFile p1 :: evs, ?_, ?_⟩
          · rw [hev]; simp
          · simpa [notMark] using hall
        · simp only [if_neg he]
          exact ⟨by simp, by simp, [], by simp, rfl⟩

theorem saveRssFeedFetch_state (net : String → Option String)
    (today title xmlUrl downloadDir : String) (s : State) :
    (saveRssFeedFetch net today title xmlUrl downloadDir s).db = s.db
    ∧ (saveRssFeedFetch net today title xmlUrl downloadDir s).rootExists = s.rootExists
    ∧ ∃ evs, (saveRssFeedFetch net today title xmlUrl downloadDir s).events = s.events ++ evs
        ∧ evs.all notMark = true := by
  rw [saveRssFeedFetch]
  split
  · exact ⟨rfl, rfl, [], by simp, rfl⟩
  · exact download_url_state net xmlUrl _ s

theorem saveRssFeedOnce_state (net : String → Option String)
    (today title xmlUrl downloadDir : String) (s : State) :
    (saveRssFeedOnce net today title xmlUrl downloadDir s).db = s.db
    ∧ (saveRssFeedOnce net today title xmlUrl downloadDir s).rootExists = s.rootExists
    ∧ ∃ evs, (saveRssFeedOnce net today title xmlUrl downloadDir s).events = s.events ++ evs
        ∧ evs.all notMark = true := by
  obtain ⟨hdb1, hroot1, evs1, hev1, hall1⟩ :=
    saveRssFeedFetch_state net today title xmlUrl downloadDir s
  obtain ⟨hdb2, hroot2, evs2, hev2, hall2⟩ := pruneFeedsLoop_state
    (feedGlob (downloadDir ++ "/" ++ escapeTitle title)
      (saveRssFeedFetch net today title xmlUrl downloadDir s)).reverse
    (saveRssFeedFetch net today title xmlUrl downloadDir s)
  refine ⟨?_, ?_, evs1 ++ evs2, ?_, ?_⟩
  · rw [saveRssFeedOnce, hdb2, hdb1]
  · rw [saveRssFeedOnce, hroot2, hroot1]
  · rw [saveRssFeedOnce, hev2, hev1, List.append_assoc]
  · simp only [List.all_append, hall1, hall2, Bool.and_self]

theorem save_rss_feed_state (net : String → Option String) (today : String) (e : Episode)
    (downloadDir : String) (s : State) (memo : FeedMemo) :
    (save_rss_feed net today e downloadDir s memo).1.db = s.db
    ∧ (save_rss_feed net today e downloadDir s memo).1.rootExists = s.rootExists
    ∧ ∃ evs, (save_rss_feed net today e downloadDir s memo).1.events = s.events ++ evs
        ∧ evs.all notMark = true := by
  rw [save_rss_feed]
  split
  · exact ⟨rfl, rfl, [], by simp, rfl⟩
  · exact saveRssFeedOnce_state net today e.podcastTitle e.podcastXmlUrl downloadDir s

theorem resolveAndDownload_state (net : String → Option String) (e : Episode)
    (podcastDir filename0 downloadPath0 jsonPath0 : String) (s s2 : State)
    (fF jF : String)
    (h : resolveAndDownload net e podcastDir filename0 downloadPath0 jsonPath0 s
      = .ok (s2, fF, jF)) :
    s2.db = s.db ∧ s2.rootExists = s.rootExists
    ∧ ∃ evs, s2.events = s.events ++ evs ∧ evs.all notMark = true := by
  simp only [resolveAndDownload] at h
  split at h
  · -- candidate file exists: branch on the cached metadata
    split at h
    · exact absurd h (by simp)
    · exact absurd h (by simp)
    · rename_i cached fn
      split at h
      · -- same overcast_id: true no-op
        simp only [Except.ok.injEq, Prod.mk.injEq] at h
        obtain ⟨rfl, -, -⟩ := h
        exact ⟨rfl, rfl, [], by simp, rfl⟩
      · -- different id: disambiguated download then filecmp
        obtain ⟨hdb, hroot, evs, hev, hall⟩ := download_url_state net e.enclosureUrl
          (podcastDir ++ "/" ++ strReplace filename0 ".mp3" ("_" ++ e.overcastId ++ ".mp3")) s
        split at h
        · split at h
          · simp only [Except.ok.injEq, Prod.mk.injEq] at h
            obtain ⟨rfl, -, -⟩ := h
            refine ⟨hdb, hroot,
              evs ++ [Ev.unlinkFile
                (podcastDir ++ "/" ++ strReplace filename0 ".mp3" ("_" ++ e.overcastId ++ ".mp3"))],
              ?_, ?_⟩
            · show (download_url net e.enclosureUrl _ s).events ++ _ = _
              rw [hev, List.append_assoc]
            · simp only [List.all_append, hall, notMark, List.all_cons, List.all_nil,
                Bool.and_self]
          · simp only [Except.ok.injEq, Prod.mk.injEq] at h
            obtain ⟨rfl, -, -⟩ := h
            exact ⟨hdb, hroot, evs, hev, hall⟩
        · simp only [Except.ok.injEq, Prod.mk.injEq] at h
          obtain ⟨rfl, -, -⟩ := h
          exact ⟨hdb, hroot, evs, hev, hall⟩
  · -- fresh download straight to the candidate path
    simp only [Except.ok.injEq, Prod.mk.injEq] at h
    obtain ⟨rfl, -, -⟩ := h
    exact download_url_state net e.enclosureUrl downloadPath0 s

/-!  ## Ledger lemmas -/

theorem has_snd_fields (e : Episode) (s : State) :
    (has_episode_been_downloaded_already e s).2.fs = s.fs
    ∧ (has_episode_been_downloaded_already e s).2.rootExists = s.rootExists
    ∧ (has_episode_been_downloaded_already e s).2.events = s.events
    ∧ tableIds (has_episode_been_downloaded_already e s).2 = tableIds s := by
  cases hdb : s.db with
  | some tbl =>
    cases tbl with
    | some ids => simp [has_episode_been_downloaded_already, connectDb, hdb, tableIds]
    | none => simp [has_episode_been_downloaded_already, connectDb, hdb, tableIds]
  | none =>
    cases hr : s.rootExists with
    | false => simp [has_episode_been_downloaded_already, connectDb, hdb, hr, tableIds]
    | true => simp [has_episode_been_downloaded_already, connectDb, hdb, hr, tableIds]

theorem has_fst_true_inv (e : Episode) (s : State)
    (h : (has_episode_been_downloaded_already e s).1 = true) :
    ∃ ids, s.db = some (some ids) ∧ e.overcastId ∈ ids
      ∧ (has_episode_been_downloaded_already e s).2 = s := by
  cases hdb : s.db with
  | some tbl =>
    cases tbl with
    | some ids =>
      refine ⟨ids, rfl, ?_, ?_⟩
      · simp [has_episode_been_downloaded_already, connectDb, hdb] at h
        exact h
      · simp [has_episode_been_downloaded_already, connectDb, hdb]
    | none => simp [has_episode_been_downloaded_already, connectDb, hdb] at h
  | none =>
    cases hr : s.rootExists <;>
      simp [has_episode_been_downloaded_already, connectDb, hdb, hr] at h

theorem has_fst_false_not_mem (e : Episode) (s : State)
    (h : (has_episode_been_downloaded_already e s).1 = false) :
    e.overcastId ∉ tableIds s := by
  cases hdb : s.db with
  | some tbl =>
    cases tbl with
    | some ids =>
      simp [has_episode_been_downloaded_already, connectDb, hdb] at h
      simpa [tableIds, hdb] using h
    | none => simp [tableIds, hdb]
  | none => simp [tableIds, hdb]

theorem has_db_shape (e : Episode) (s : State) :
    (has_episode_been_downloaded_already e s).2.db = s.db
    ∨ (s.db = none ∧ (has_episode_been_downloaded_already e s).2.db = some none) := by
  cases hdb : s.db with
  | some tbl =>
    cases tbl <;> exact Or.inl (by simp [has_episode_been_downloaded_already, connectDb, hdb])
  | none =>
    cases hr : s.rootExists with
    | false =>
      exact Or.inl (by simp [has_episode_been_downloaded_already, connectDb, hdb, hr])
    | true =>
      exact Or.inr ⟨rfl, by simp [has_episode_been_downloaded_already, connectDb, hdb, hr]⟩

theorem mark_ok_inv (e : Episode) (s s' : State)
    (h : mark_episode_as_downloaded e s = .ok s') :
    s'.db = some (some (tableIds s ++ [e.overcastId]))
    ∧ s'.fs = s.fs ∧ s'.rootExists = s.rootExists
    ∧ s'.events = s.events ++ [Ev.markEv e.overcastId]
    ∧ e.overcastId ∉ tableIds s := by
  cases hdb : s.db with
  | some tbl =>
    have htbl : tbl.getD [] = tableIds s := by cases tbl <;> simp [tableIds, hdb]
    simp only [mark_episode_as_downloaded, connectDb, hdb] at h
    split at h
    · exact absurd h (by simp)
    · rename_i hmem
      simp only [Except.ok.injEq] at h
      subst h
      rw [htbl] at hmem
      refine ⟨by simp [htbl], rfl, rfl, rfl, ?_⟩
      intro hm
      exact hmem (List.elem_eq_true_of_mem hm)
  | none =>
    cases hr : s.rootExists with
    | false => simp [mark_episode_as_downloaded, connectDb, hdb, hr] at h
    | true =>
      simp only [mark_episode_as_downloaded, connectDb, hdb, hr, if_pos] at h
      split at h
      · exact absurd h (by simp)
      · simp only [Except.ok.injEq] at h
        subst h
        exact ⟨by simp [tableIds, hdb], rfl, rfl, rfl, by simp [tableIds, hdb]⟩

theorem mark_ok_of (e : Episode) (s : State)
    (hconn : s.db ≠ none ∨ s.rootExists = true)
    (hmem : e.overcastId ∉ tableIds s) :
    ∃ s', mark_episode_as_downloaded e s = .ok s' := by
  cases hdb : s.db with
  | some tbl =>
    have htbl : tbl.getD [] = tableIds s := by cases tbl <;> simp [tableIds, hdb]
    simp only [mark_episode_as_downloaded, connectDb, hdb]
    rw [htbl, if_neg (fun hc => hmem (List.mem_of_elem_eq_true hc))]
    exact ⟨_, rfl⟩
  | none =>
    have hr : s.rootExists = true := by
      rcases hconn with hc | hc
      · exact absurd hdb hc
      · exact hc
    simp only [mark_episode_as_downloaded, connectDb, hdb, hr, if_pos, Option.getD_none]
    rw [if_neg (by simp)]
    exact ⟨_, rfl⟩

/-!  ## Inversion of `download_episode` -/

theorem download_episode_ok_inv (net : String → Option String) (today : String)
    (e : Episode) (dir : String) (s : State) (memo : FeedMemo) (s' : State)
    (memo' : FeedMemo)
    (h : download_episode net today e dir s memo = .ok (s', memo')) :
    (s' = s ∧ memo' = memo ∧ ∃ ids, s.db = some (some ids) ∧ e.overcastId ∈ ids)
    ∨ (s'.db = some (some (tableIds s ++ [e.overcastId]))
       ∧ s'.rootExists = true
       ∧ e.overcastId ∉ tableIds s
       ∧ ∃ mid, s'.events = s.events ++ mid ++ [Ev.markEv e.overcastId]
           ∧ mid.all notMark = true ∧ ∃ p, Ev.writeMeta p ∈ mid) := by
  rw [download_episode] at h
  rcases hhas : has_episode_been_downloaded_already e s with ⟨b, sh⟩
  rw [hhas] at h
  obtain ⟨hfs, hroot, hevs, hids⟩ := has_snd_fields e s
  rw [hhas] at hfs hroot hevs hids
  cases b with
  | true =>
    simp only [Except.ok.injEq, Prod.mk.injEq] at h
    obtain ⟨rfl, rfl⟩ := h
    obtain ⟨ids, hdb, hm, hsh⟩ := has_fst_true_inv e s (by rw [hhas])
    rw [hhas] at hsh
    exact Or.inl ⟨hsh, rfl, ids, hdb, hm⟩
  | false =>
    simp only at h
    have hnotmem : e.overcastId ∉ tableIds s :=
      has_fst_false_not_mem e s (by rw [hhas])
    cases hres : resolveAndDownload net e (dir ++ "/" ++ escapeTitle e.podcastTitle)
        (get_filename e.enclosureUrl e.title)
        (dir ++ "/" ++ escapeTitle e.podcastTitle ++ "/" ++ get_filename e.enclosureUrl e.title)
        (dir ++ "/" ++ escapeTitle e.podcastTitle ++ "/" ++ escapeTitle e.title ++ ".json")
        { sh with rootExists := true } with
    | error er => rw [hres] at h; exact absurd h (by simp)
    | ok out =>
      rcases out with ⟨s2, fF, jF⟩
      rw [hres] at h
      obtain ⟨hdb2, hroot2, evs2, hev2, hall2⟩ :=
        resolveAndDownload_state net e _ _ _ _ _ s2 fF jF hres
      simp only [finishEpisode] at h
      set s3 : State := { s2 with fs := fsWrite s2.fs jF (Content.meta e fF), events := s2.events ++ [Ev.writeMeta jF] } with hs3
      obtain ⟨hdb4, hroot4, evs4, hev4, hall4⟩ := save_rss_feed_state net today e dir s3 memo
      cases hmark : mark_episode_as_downloaded e (save_rss_feed net today e dir s3 memo).1 with
      | error er => rw [hmark] at h; exact absurd h (by simp)
      | ok s5 =>
        rw [hmark] at h
        simp only [Except.ok.injEq, Prod.mk.injEq] at h
        obtain ⟨rfl, rfl⟩ := h
        obtain ⟨hdb5, hfs5, hroot5, hev5, -⟩ := mark_ok_inv e _ _ hmark
        have hids4 : tableIds (save_rss_feed net today e dir s3 memo).1 = tableIds s := by
          have h3 : tableIds s3 = tableIds s2 := by simp [tableIds, hs3]
          have h2 : tableIds s2 = tableIds { sh with rootExists := true } := by
            simp [tableIds, hdb2]
          have hs : tableIds { sh with rootExists := true } = tableIds sh := by
            simp [tableIds]
          have h4 : tableIds (save_rss_feed net today e dir s3 memo).1 = tableIds s3 := by
            simp [tableIds, hdb4]
          rw [h4, h3, h2, hs, hids]
        refine Or.inr ⟨by rw [hdb5, hids4],
          by rw [hroot5, hroot4]; show s2.rootExists = true; rw [hroot2], hnotmem,
          evs2 ++ [Ev.writeMeta jF] ++ evs4, ?_, ?_, jF, by simp⟩
        · rw [hev5, hev4]
          have : s3.events = sh.events ++ evs2 ++ [Ev.writeMeta jF] := by
            rw [hs3]
            simp only []
            rw [hev2]
          rw [this, hevs]
          simp [List.append_assoc]
        · simp only [List.all_append, hall2, hall4, List.all_cons, List.all_nil, notMark,
            Bool.and_self]

/-!  ## Run-level lemmas -/

theorem download_episode_skip (net : String → Option String) (today : String) (e : Episode)
    (dir : String) (s : State) (memo : FeedMemo) (ids : List String)
    (hdb : s.db = some (some ids)) (hmem : e.overcastId ∈ ids) :
    download_episode net today e dir s memo = .ok (s, memo) := by
  have hc : ids.contains e.overcastId = true := List.elem_eq_true_of_mem hmem
  simp [download_episode, has_episode_been_downloaded_already, connectDb, hdb, hc, hmem]

theorem download_episode_mono (net : String → Option String) (today : String) (e : Episode)
    (dir : String) (s : State) (memo : FeedMemo) (s' : State) (memo' : FeedMemo)
    (h : download_episode net today e dir s memo = .ok (s', memo')) :
    (∀ x, x ∈ tableIds s → x ∈ tableIds s')
    ∧ ∃ ids', s'.db = some (some ids') ∧ e.overcastId ∈ ids' := by
  rcases download_episode_ok_inv net today e dir s memo s' memo' h with
    ⟨rfl, -, ids, hdb, hm⟩ | ⟨hdb, -, -, -⟩
  · exact ⟨fun x hx => hx, ids, hdb, hm⟩
  · have hids : tableIds s' = tableIds s ++ [e.overcastId] := by simp [tableIds, hdb]
    refine ⟨fun x hx => ?_, tableIds s ++ [e.overcastId], hdb, by simp⟩
    rw [hids]
    exact List.mem_append_left _ hx

theorem runEpisodes_mem (net : String → Option String) (today dir : String)
    (eps : List Episode) : ∀ (s : State) (m : FeedMemo) (s1 : State) (m1 : FeedMemo),
    runEpisodes net today dir eps (s, m) = .ok (s1, m1) →
    (∀ x, x ∈ tableIds s → x ∈ tableIds s1)
    ∧ (∀ e ∈ eps, e.overcastId ∈ tableIds s1)
    ∧ ((s1 = s ∧ m1 = m) ∨ ∃ ids1, s1.db = some (some ids1)) := by
  induction eps with
  | nil =>
    intro s m s1 m1 h
    simp only [runEpisodes, Except.ok.injEq, Prod.mk.injEq] at h
    obtain ⟨rfl, rfl⟩ := h
    exact ⟨fun x hx => hx, by simp, Or.inl ⟨rfl, rfl⟩⟩
  | cons e rest ih =>
    intro s m s1 m1 h
    simp only [runEpisodes] at h
    cases hde : download_episode net today e dir s m with
    | error er => rw [hde] at h; exact absurd h (by simp)
    | ok sm' =>
      rcases sm' with ⟨s', m'⟩
      rw [hde] at h
      obtain ⟨mono1, ids', hdb', hmem'⟩ :=
        download_episode_mono net today e dir s m s' m' hde
      obtain ⟨mono2, hmem2, hshape2⟩ := ih s' m' s1 m1 h
      refine ⟨fun x hx => mono2 x (mono1 x hx), ?_, ?_⟩
      · intro e2 he2
        have hts : tableIds s' = ids' := by simp [tableIds, hdb']
        rcases List.mem_cons.mp he2 with rfl | he2
        · exact mono2 _ (by rw [hts]; exact hmem')
        · exact hmem2 e2 he2
      · rcases hshape2 with ⟨rfl, rfl⟩ | hsh
        · exact Or.inr ⟨ids', hdb'⟩
        · exact Or.inr hsh

theorem resolveAndDownload_error_inv (net : String → Option String) (e : Episode)
    (podcastDir filename0 downloadPath0 jsonPath0 : String) (s : State) (er : Err)
    (h : resolveAndDownload net e podcastDir filename0 downloadPath0 jsonPath0 s
      = .error er) :
    er = .metadataUnreadable jsonPath0 ∨ er = .metadataUnparseable jsonPath0 := by
  simp only [resolveAndDownload] at h
  split at h
  · split at h
    · simp only [Except.error.injEq] at h
      exact Or.inl h.symm
    · simp only [Except.error.injEq] at h
      exact Or.inr h.symm
    · split at h
      · exact absurd h (by simp)
      · split at h
        · split at h
          · exact absurd h (by simp)
          · exact absurd h (by simp)
        · exact absurd h (by simp)
  · exact absurd h (by simp)

theorem finishEpisode_ok (net : String → Option String) (today : String) (e : Episode)
    (dir fF jF : String) (s2 : State) (memo : FeedMemo)
    (hroot : s2.rootExists = true) (hmem : e.overcastId ∉ tableIds s2) :
    ∃ r, finishEpisode net today e dir fF jF s2 memo = .ok r := by
  have h3root : (State.mk (fsWrite s2.fs jF (Content.meta e fF)) s2.rootExists s2.db
      (s2.events ++ [Ev.writeMeta jF])).rootExists = true := hroot
  have h3ids : tableIds (State.mk (fsWrite s2.fs jF (Content.meta e fF)) s2.rootExists s2.db
      (s2.events ++ [Ev.writeMeta jF])) = tableIds s2 := by simp [tableIds]
  obtain ⟨hdb4, hroot4, -⟩ := save_rss_feed_state net today e dir
    (State.mk (fsWrite s2.fs jF (Content.meta e fF)) s2.rootExists s2.db
      (s2.events ++ [Ev.writeMeta jF])) memo
  have hids4 : tableIds (save_rss_feed net today e dir
      (State.mk (fsWrite s2.fs jF (Content.meta e fF)) s2.rootExists s2.db
        (s2.events ++ [Ev.writeMeta jF])) memo).1 = tableIds s2 := by
    simp [tableIds, hdb4]
  obtain ⟨s5, hmark⟩ := mark_ok_of e (save_rss_feed net today e dir
      (State.mk (fsWrite s2.fs jF (Content.meta e fF)) s2.rootExists s2.db
        (s2.events ++ [Ev.writeMeta jF])) memo).1
    (Or.inr (by rw [hroot4]; exact h3root)) (by rw [hids4]; exact hmem)
  refine ⟨(s5, (save_rss_feed net today e dir
      (State.mk (fsWrite s2.fs jF (Content.meta e fF)) s2.rootExists s2.db
        (s2.events ++ [Ev.writeMeta jF])) memo).2), ?_⟩
  simp only [finishEpisode]
  rw [hmark]

theorem download_episode_no_integrity (net : String → Option String) (today : String)
    (e : Episode) (dir : String) (s : State) (memo : FeedMemo) :
    (∃ r, download_episode net today e dir s memo = .ok r)
    ∨ (∃ p, download_episode net today e dir s memo = .error (.metadataUnreadable p))
    ∨ (∃ p, download_episode net today e dir s memo = .error (.metadataUnparseable p)) := by
  rcases hhas : has_episode_been_downloaded_already e s with ⟨b, sh⟩
  cases b with
  | true => exact Or.inl ⟨(sh, memo), by simp [download_episode, hhas]⟩
  | false =>
    have hnotmem : e.overcastId ∉ tableIds s :=
      has_fst_false_not_mem e s (by rw [hhas])
    obtain ⟨-, -, -, hids⟩ := has_snd_fields e s
    rw [hhas] at hids
    cases hres : resolveAndDownload net e (dir ++ "/" ++ escapeTitle e.podcastTitle)
        (get_filename e.enclosureUrl e.title)
        (dir ++ "/" ++ escapeTitle e.podcastTitle ++ "/" ++ get_filename e.enclosureUrl e.title)
        (dir ++ "/" ++ escapeTitle e.podcastTitle ++ "/" ++ escapeTitle e.title ++ ".json")
        { sh with rootExists := true } with
    | error er =>
      rcases resolveAndDownload_error_inv net e _ _ _ _ _ er hres with her | her
      · refine Or.inr (Or.inl ⟨dir ++ "/" ++ escapeTitle e.podcastTitle ++ "/"
          ++ escapeTitle e.title ++ ".json", ?_⟩)
        simp only [download_episode, hhas]
        rw [hres, her]
      · refine Or.inr (Or.inr ⟨dir ++ "/" ++ escapeTitle e.podcastTitle ++ "/"
          ++ escapeTitle e.title ++ ".json", ?_⟩)
        simp only [download_episode, hhas]
        rw [hres, her]
    | ok out =>
      rcases out with ⟨s2, fF, jF⟩
      obtain ⟨hdb2, hroot2, -⟩ :=
        resolveAndDownload_state net e _ _ _ _ _ s2 fF jF hres
      have hids2 : tableIds s2 = tableIds s := by
        have : tableIds s2 = tableIds { sh with rootExists := true } := by
          simp [tableIds, hdb2]
        rw [this]
        simpa [tableIds] using hids
      obtain ⟨r, hr⟩ := finishEpisode_ok net today e dir fF jF s2 memo
        (by rw [hroot2]) (by rw [hids2]; exact hnotmem)
      refine Or.inl ⟨r, ?_⟩
      simp only [download_episode, hhas]
      rw [hres]
      exact hr

theorem download_episode_fresh_ok (net : String → Option String) (today : String)
    (e : Episode) (dir : String) (s : State) (memo : FeedMemo)
    (hfresh : fsLookup s.fs (dir ++ "/" ++ escapeTitle e.podcastTitle ++ "/"
      ++ get_filename e.enclosureUrl e.title) = none) :
    ∃ r, download_episode net today e dir s memo = .ok r := by
  rcases hhas : has_episode_been_downloaded_already e s with ⟨b, sh⟩
  cases b with
  | true => exact ⟨(sh, memo), by simp [download_episode, hhas]⟩
  | false =>
    have hnotmem : e.overcastId ∉ tableIds s :=
      has_fst_false_not_mem e s (by rw [hhas])
    obtain ⟨hfs, -, -, hids⟩ := has_snd_fields e s
    rw [hhas] at hfs hids
    have hlook : fsLookup ({ sh with rootExists := true } : State).fs
        (dir ++ "/" ++ escapeTitle e.podcastTitle ++ "/"
          ++ get_filename e.enclosureUrl e.title) = none := by
      show fsLookup sh.fs _ = none
      rw [show sh.fs = s.fs from hfs]
      exact hfresh
    have hres : resolveAndDownload net e (dir ++ "/" ++ escapeTitle e.podcastTitle)
        (get_filename e.enclosureUrl e.title)
        (dir ++ "/" ++ escapeTitle e.podcastTitle ++ "/" ++ get_filename e.enclosureUrl e.title)
        (dir ++ "/" ++ escapeTitle e.podcastTitle ++ "/" ++ escapeTitle e.title ++ ".json")
        { sh with rootExists := true }
        = .ok (download_url net e.enclosureUrl
            (dir ++ "/" ++ escapeTitle e.podcastTitle ++ "/"
              ++ get_filename e.enclosureUrl e.title) { sh with rootExists := true },
          get_filename e.enclosureUrl e.title,
          dir ++ "/" ++ escapeTitle e.podcastTitle ++ "/" ++ escapeTitle e.title ++ ".json") := by
      rw [resolveAndDownload, hlook]
      simp
    obtain ⟨hdbu, hrootu, -⟩ := download_url_state net e.enclosureUrl
      (dir ++ "/" ++ escapeTitle e.podcastTitle ++ "/" ++ get_filename e.enclosureUrl e.title)
      { sh with rootExists := true }
    have hidsu : tableIds (download_url net e.enclosureUrl
        (dir ++ "/" ++ escapeTitle e.podcastTitle ++ "/"
          ++ get_filename e.enclosureUrl e.title) { sh with rootExists := true })
        = tableIds s := by
      have h1 : tableIds (download_url net e.enclosureUrl
          (dir ++ "/" ++ escapeTitle e.podcastTitle ++ "/"
            ++ get_filename e.enclosureUrl e.title) { sh with rootExists := true })
          = tableIds ({ sh with rootExists := true } : State) := by simp [tableIds, hdbu]
      rw [h1]
      simpa [tableIds] using hids
    obtain ⟨r, hr⟩ := finishEpisode_ok net today e dir
      (get_filename e.enclosureUrl e.title)
      (dir ++ "/" ++ escapeTitle e.podcastTitle ++ "/" ++ escapeTitle e.title ++ ".json")
      (download_url net e.enclosureUrl
        (dir ++ "/" ++ escapeTitle e.podcastTitle ++ "/"
          ++ get_filename e.enclosureUrl e.title) { sh with rootExists := true }) memo
      (by rw [hrootu]) (by rw [hidsu]; exact hnotmem)
    refine ⟨r, ?_⟩
    simp only [download_episode, hhas]
    rw [hres]
    exact hr

theorem runEpisodes_skip (net : String → Option String) (today dir : String)
    (eps : List Episode) : ∀ (s : State) (m : FeedMemo) (ids : List String),
    s.db = some (some ids) → (∀ e ∈ eps, e.overcastId ∈ ids) →
    runEpisodes net today dir eps (s, m) = .ok (s, m) := by
  induction eps with
  | nil => intro s m ids _ _; simp [runEpisodes]
  | cons e rest ih =>
    intro s m ids hdb hall
    simp only [runEpisodes]
    rw [download_episode_skip net today e dir s m ids hdb (hall e (by simp))]
    exact ih s m ids hdb (fun e2 he2 => hall e2 (by simp [he2]))

/-!  ## Lemmas about the pure snapshot-pruning model -/

theorem pruneSnapsRev_pair_ne (x a : String × String) (rest : List (String × String))
    (h : a.2 ≠ x.2) : pruneSnapsRev (x :: a :: rest) = x :: a :: rest := by
  simp [pruneSnapsRev, h]

theorem pruneSnaps_concat_of_ne (l : List (String × String)) (x : String × String)
    (h : ∀ a, l.getLast? = some a → a.2 ≠ x.2) :
    pruneSnaps (l ++ [x]) = l ++ [x] := by
  rw [pruneSnaps, List.reverse_append]
  cases hrev : l.reverse with
  | nil =>
    have hl : l = [] := by simpa using congrArg List.reverse hrev
    subst hl
    rfl
  | cons a t =>
    have hlast : l.getLast? = some a := by
      rw [(List.head?_reverse l).symm, hrev]
      rfl
    have ha := h a hlast
    show (pruneSnapsRev (x :: a :: t)).reverse = l ++ [x]
    rw [pruneSnapsRev_pair_ne x a t ha]
    have : (x :: a :: t).reverse = (a :: t).reverse ++ [x] := by simp
    rw [this, show (a :: t) = l.reverse from hrev.symm, List.reverse_reverse]

theorem pruneSnaps_concat_of_eq (l : List (String × String)) (x a : String × String)
    (hc : List.Chain' (fun p q => p.2 ≠ q.2) l) (hl : l.getLast? = some a)
    (he : a.2 = x.2) : pruneSnaps (l ++ [x]) = l := by
  have hrevc : List.Chain' (fun p q => q.2 ≠ p.2) l.reverse := by
    rw [List.chain'_reverse]
    exact hc
  cases hrev : l.reverse with
  | nil =>
    have hl0 : l = [] := by simpa using congrArg List.reverse hrev
    rw [hl0] at hl
    simp at hl
  | cons a' t =>
    have hlast : l.getLast? = some a' := by
      rw [(List.head?_reverse l).symm, hrev]
      rfl
    have haa : a' = a := by
      rw [hlast] at hl
      exact Option.some.inj hl
    subst haa
    rw [pruneSnaps, List.reverse_append, hrev]
    show (pruneSnapsRev (x :: a' :: t)).reverse = l
    have hstep : pruneSnapsRev (x :: a' :: t) = pruneSnapsRev (a' :: t) := by
      simp [pruneSnapsRev, he.symm]
    rw [hstep]
    have hfix : pruneSnapsRev (a' :: t) = a' :: t := by
      cases t with
      | nil => rfl
      | cons b t' =>
        rw [hrev] at hrevc
        have hne : b.2 ≠ a'.2 := (List.chain'_cons.mp hrevc).1
        exact pruneSnapsRev_pair_ne a' b t' hne
    rw [hfix, show (a' :: t) = l.reverse from hrev.symm, List.reverse_reverse]

theorem strLtB_irrefl : ∀ l : List Char, strLtB l l = false := by
  intro l
  induction l with
  | nil => rfl
  | cons a as ih => simp [strLtB, ih]

theorem strLt_ne (a b : String) (h : strLt a b = true) : a ≠ b := by
  intro he
  rw [he, strLt, strLtB_irrefl] at h
  exact Bool.false_ne_true h

theorem insertSnap_append (snaps : List (String × String)) (x : String × String)
    (h : ∀ p ∈ snaps, strLt p.1 x.1 = true) : insertSnap x snaps = snaps ++ [x] := by
  induction snaps with
  | nil => rfl
  | cons y ys ih =>
    have hy : strLt y.1 x.1 = true := h y (by simp)
    simp only [insertSnap, if_pos hy, List.cons_append]
    rw [ih (fun p hp => h p (by simp [hp]))]

theorem snaps_any_today_false (snaps : List (String × String)) (today : String)
    (h : ∀ p ∈ snaps, strLt p.1 today = true) :
    snaps.any (fun p => p.1 = today) = false := by
  rw [List.any_eq_false]
  intro p hp
  simp only [decide_eq_true_eq]
  exact strLt_ne p.1 today (h p hp)

end Overcast

namespace AtomicDownload

/-!  ## Lemmas about the retry loop and the path helpers -/

theorem dirname_append_of_no_slash (p suf : String) (h : ('/' : Char) ∉ suf.data) :
    dirname (p ++ suf) = dirname p := by
  unfold dirname
  rw [String.data_append, List.reverse_append, List.dropWhile_append]
  have hnil : ((suf.data.reverse).dropWhile (fun c => c ≠ '/')).isEmpty = true := by
    rw [List.isEmpty_iff, List.dropWhile_eq_nil_iff]
    intro x hx
    have hxm : x ∈ suf.data := List.mem_reverse.mp hx
    simp only [decide_eq_true_eq]
    exact fun heq => h (heq ▸ hxm)
  rw [if_pos hnil]

theorem append_ne_self_of_len_pos (p q : String) (h : 0 < q.length) : p ++ q ≠ p := by
  intro he
  have hlen := congrArg String.length he
  rw [String.length_append] at hlen
  omega

theorem retryRec_attempts_le (net : Nat → String → FetchResult) (tokens : Nat → String)
    (url path : String) : ∀ (fuel made waited : Nat) (fs : List (String × String)),
    (retryRec net tokens url path fuel made waited fs).attempts ≤ made + fuel := by
  intro fuel
  induction fuel with
  | zero => intro made waited fs; exact Nat.le_add_right made 0
  | succ n ih =>
    intro made waited fs
    simp only [retryRec]
    split
    · dsimp only
      omega
    · split
      · split
        · dsimp only
          omega
        · exact Nat.le_trans (ih (made + 1) (waited + 60) _) (by omega)
      · dsimp only
        omega

theorem retryRec_waited (net : Nat → String → FetchResult) (tokens : Nat → String)
    (url path : String) : ∀ (fuel made : Nat) (fs : List (String × String)), 1 ≤ fuel →
    (retryRec net tokens url path fuel made (60 * made) fs).waited
      = 60 * ((retryRec net tokens url path fuel made (60 * made) fs).attempts - 1) := by
  intro fuel
  induction fuel with
  | zero => intro made fs h; omega
  | succ n ih =>
    intro made fs _
    simp only [retryRec]
    split
    · dsimp only
      omega
    · split
      · split
        · dsimp only
          omega
        · have h60 : 60 * made + 60 = 60 * (made + 1) := by ring
          rw [h60]
          exact ih (made + 1) _ (by omega)
      · dsimp only
        omega

theorem retryRec_const_404 (net : Nat → String → FetchResult) (tokens : Nat → String)
    (url path : String) (hnet : ∀ i, net i url = .statusFail 404) :
    ∀ (fuel made waited : Nat) (fs : List (String × String)), 1 ≤ fuel →
    Overcast.fsLookup fs path = none →
    retryRec net tokens url path fuel made waited fs
      = { fs := fs, result := .error (.httpxStatus 404), attempts := made + fuel,
          waited := waited + 60 * (fuel - 1) } := by
  intro fuel
  induction fuel with
  | zero => intro made waited fs h; omega
  | succ n ih =>
    intro made waited fs _ hp
    have hdf : download_file (net made) url path (tokens made) fs
        = (fs, .error (.httpxStatus 404)) := by
      rw [download_file, hp]
      simp [hnet made]
    simp only [retryRec, hdf]
    cases n with
    | zero =>
      rw [if_pos (show retryable (NetErr.httpxStatus 404) = true from rfl)]
      show ({ fs := fs, result := .error (.httpxStatus 404), attempts := made + 1, waited := waited } : RetryOutcome) = _
      rw [RetryOutcome.mk.injEq]
      refine ⟨rfl, rfl, by omega, by omega⟩
    | succ f =>
      rw [if_pos (show retryable (NetErr.httpxStatus 404) = true from rfl)]
      show retryRec net tokens url path (f + 1) (made + 1) (waited + 60) fs = _
      rw [ih (made + 1) (waited + 60) fs (by omega) hp]
      rw [RetryOutcome.mk.injEq]
      refine ⟨rfl, rfl, by omega, by omega⟩

end AtomicDownload



/-!  # Claim theorems -/

open Overcast

/-- C10: when the archive root directory exists but the ledger store file
does not, `has_episode_been_downloaded_already` returns false and, as a side
effect of `sqlite3.connect`, creates an empty store file (state `some none`
at `<download_dir>/overcast.db`); when the archive root directory itself is
missing, it returns false without creating anything. -/
theorem C10_ledger_bootstrap : ∀ (e : Episode) (s : State), s.db = none →
    (s.rootExists = true →
      has_episode_been_downloaded_already e s = (false, { s with db := some none }))
    ∧ (s.rootExists = false →
      has_episode_been_downloaded_already e s = (false, s)) := by
  intro e s hdb
  constructor
  · intro hr
    simp [has_episode_been_downloaded_already, connectDb, hdb, hr]
  · intro hr
    simp [has_episode_been_downloaded_already, connectDb, hdb, hr]

/-- Witness for C10 at concrete states. -/
theorem C10_witness :
    has_episode_been_downloaded_already epA sFresh = (false, { sFresh with db := some none })
    ∧ has_episode_been_downloaded_already epA { sFresh with rootExists := false }
      = (false, { sFresh with rootExists := false }) :=
  ⟨(C10_ledger_bootstrap epA sFresh rfl).1 rfl,
   (C10_ledger_bootstrap epA { sFresh with rootExists := false } rfl).2 rfl⟩

/-- C4 counterexample: inserting an identifier that is already present in the
ledger raises `sqlite3.IntegrityError` (the `INSERT` hits the PRIMARY KEY
constraint), so marking is not idempotent as the claim states. -/
theorem C4_counterexample :
    mark_episode_as_downloaded epA sColl = .error SqlErr.integrityError := by
  rfl

/-- C4 amended: `mark_episode_as_downloaded` creates the store and table on
first use if absent and inserts the identifier, but inserting an identifier
already present raises an integrity error (ledger marking is not idempotent);
the pipeline never surfaces this error because `download_episode` only calls
`mark` for identifiers that the ledger check reported absent. -/
theorem C4_amended : ∀ (e : Episode) (s : State) (ids : List String)
    (net : String → Option String) (today dir : String) (memo : FeedMemo),
    (s.db = none → s.rootExists = true →
      mark_episode_as_downloaded e s
        = .ok { s with db := some (some [e.overcastId]),
                       events := s.events ++ [Ev.markEv e.overcastId] })
    ∧ (s.db = some none →
      mark_episode_as_downloaded e s
        = .ok { s with db := some (some [e.overcastId]),
                       events := s.events ++ [Ev.markEv e.overcastId] })
    ∧ (s.db = some (some ids) → e.overcastId ∉ ids →
      mark_episode_as_downloaded e s
        = .ok { s with db := some (some (ids ++ [e.overcastId])),
                       events := s.events ++ [Ev.markEv e.overcastId] })
    ∧ (s.db = some (some ids) → e.overcastId ∈ ids →
      mark_episode_as_downloaded e s = .error SqlErr.integrityError)
    ∧ ((∃ r, download_episode net today e dir s memo = .ok r)
       ∨ (∃ p, download_episode net today e dir s memo = .error (.metadataUnreadable p))
       ∨ (∃ p, download_episode net today e dir s memo = .error (.metadataUnparseable p))) := by
  intro e s ids net today dir memo
  refine ⟨?_, ?_, ?_, ?_, download_episode_no_integrity net today e dir s memo⟩
  · intro h1 h2
    simp [mark_episode_as_downloaded, connectDb, h1, h2]
  · intro h1
    simp [mark_episode_as_downloaded, connectDb, h1]
  · intro h1 hnot
    simp only [mark_episode_as_downloaded, connectDb, h1, Option.getD_some]
    rw [if_neg (fun hc => hnot (List.mem_of_elem_eq_true hc))]
  · intro h1 hmem
    simp only [mark_episode_as_downloaded, connectDb, h1, Option.getD_some]
    rw [if_pos (List.elem_eq_true_of_mem hmem)]

/-- Witness for C4: table creation at a fresh archive, and the integrity
error at a concrete ledger that already holds the identifier. -/
theorem C4_witness :
    mark_episode_as_downloaded epA sFresh
      = .ok { sFresh with db := some (some ["A"]), events := [Ev.markEv "A"] }
    ∧ mark_episode_as_downloaded epA sColl = .error SqlErr.integrityError :=
  ⟨(C4_amended epA sFresh [] netOk "2024-01-02" "dl" []).1 rfl rfl,
   (C4_amended epA sColl ["A"] netOk "2024-01-02" "dl" []).2.2.2.1 rfl (by decide)⟩

/-- C1: an episode identifier already recorded in the ledger causes
`download_episode` to return with the state completely unchanged (no network
fetch, no filesystem write, no events); consequently a second full pipeline
run over an unchanged export reproduces exactly the state of the first run
(files, metadata, ledger and event trace identical, hence zero network calls
in the second run). -/
theorem C1_ledger_skip_idempotent :
    ∀ (net : String → Option String) (today dir : String) (eps : List Episode)
      (s0 s1 s : State) (e : Episode) (memo : FeedMemo) (ids : List String),
    (s.db = some (some ids) → e.overcastId ∈ ids →
      download_episode net today e dir s memo = .ok (s, memo))
    ∧ (runPipeline net today dir eps s0 = .ok s1 →
      runPipeline net today dir eps s1 = .ok s1) := by
  intro net today dir eps s0 s1 s e memo ids
  constructor
  · exact fun hdb hmem => download_episode_skip net today e dir s memo ids hdb hmem
  · intro hrun
    rw [runPipeline] at hrun
    cases hre : runEpisodes net today dir eps (s0, []) with
    | error er => rw [hre] at hrun; exact absurd hrun (by simp)
    | ok sm =>
      rw [hre] at hrun
      simp only [Except.ok.injEq] at hrun
      obtain ⟨-, hmem, -⟩ :=
        runEpisodes_mem net today dir eps s0 [] sm.1 sm.2 (by rw [hre])
      cases eps with
      | nil => simp [runPipeline, runEpisodes]
      | cons e0 rest0 =>
        have hm0 := hmem e0 (by simp)
        cases hdb1 : sm.1.db with
        | none =>
          rw [show tableIds sm.1 = [] from by simp [tableIds, hdb1]] at hm0
          simp at hm0
        | some tbl =>
          cases tbl with
          | none =>
            rw [show tableIds sm.1 = [] from by simp [tableIds, hdb1]] at hm0
            simp at hm0
          | some ids1 =>
            have hdb1' : s1.db = some (some ids1) := hrun ▸ hdb1
            have hmem' : ∀ e2 ∈ (e0 :: rest0), e2.overcastId ∈ ids1 := by
              intro e2 he2
              have h := hmem e2 he2
              rw [show tableIds sm.1 = ids1 from by simp [tableIds, hdb1]] at h
              exact h
            rw [runPipeline,
              runEpisodes_skip net today dir (e0 :: rest0) s1 [] ids1 hdb1' hmem']

/-- Witness for C1: episode `A` is already in the ledger of `sColl`, so both
the per-episode skip and the re-run identity hold there. -/
theorem C1_witness :
    download_episode netOk "2024-01-02" epA "dl" sColl [] = .ok (sColl, [])
    ∧ runPipeline netOk "2024-01-02" "dl" [epA] sColl = .ok sColl :=
  ⟨(C1_ledger_skip_idempotent netOk "2024-01-02" "dl" [epA] sColl sColl sColl epA []
      ["A"]).1 rfl (by decide),
   (C1_ledger_skip_idempotent netOk "2024-01-02" "dl" [epA] sColl sColl sColl epA []
      ["A"]).2 (by rfl)⟩

/-- C3 counterexample: when the audio fetch fails, `download_url` swallows
the exception (prints and returns), and `download_episode` still writes the
metadata and marks the episode: the final ledger holds `C` while no audio
file exists at the canonical path, refuting "never marked while the audio
file is absent". -/
theorem C3_counterexample :
    c3failState.isSome = true
    ∧ c3failState.map (fun st => st.db) = some (some (some ["C"]))
    ∧ c3failState.map (fun st => fsLookup st.fs "dl/P/Episode 1.mp3") = some none := by
  exact ⟨rfl, rfl, rfl⟩

/-- C3 amended: for every processed (not-yet-recorded) episode, the ledger
mark is appended exactly once, as the final event, after the metadata write
(the events in between contain no mark and include a metadata write); when
the audio download succeeds the audio file is present at its canonical path
in the final state alongside the mark — but a failed download still marks
(see the counterexample). -/
theorem C3_amended :
    (∀ (net : String → Option String) (today : String) (e : Episode) (dir : String)
      (s : State) (memo : FeedMemo) (s' : State) (memo' : FeedMemo),
      (has_episode_been_downloaded_already e s).1 = false →
      download_episode net today e dir s memo = .ok (s', memo') →
      ∃ mid, s'.events = s.events ++ mid ++ [Ev.markEv e.overcastId]
        ∧ mid.all notMark = true ∧ ∃ p, Ev.writeMeta p ∈ mid)
    ∧ (c3okState.map (fun st => fsLookup st.fs "dl/P/Episode 1.mp3")
        = some (some (Content.bytes "AUDIO"))
      ∧ c3okState.map (fun st => st.db) = some (some (some ["A"]))) := by
  constructor
  · intro net today e dir s memo s' memo' hfalse hok
    rcases download_episode_ok_inv net today e dir s memo s' memo' hok with
      ⟨-, -, ids, hdb, hm⟩ | ⟨-, -, -, mid, hev, hall, hp⟩
    · exfalso
      have hnot := has_fst_false_not_mem e s hfalse
      rw [show tableIds s = ids from by simp [tableIds, hdb]] at hnot
      exact hnot hm
    · exact ⟨mid, hev, hall, hp⟩
  · exact ⟨rfl, rfl⟩

/-- Witness for C3 at the concrete failed-download run of episode `C`. -/
theorem C3_witness :
    ∃ mid, c3finalState.events = sFresh.events ++ mid ++ [Ev.markEv epC.overcastId]
      ∧ mid.all notMark = true ∧ ∃ p, Ev.writeMeta p ∈ mid :=
  C3_amended.1 netFeedOnly "2024-01-02" epC "dl" sFresh [] c3finalState
    [("P", "http://h/f")] (by rfl) (by rfl)

/-- C9 counterexample: an unreadable cached metadata file for the first
episode aborts the whole run (the `__main__` loop has no per-episode
exception handling), so the second episode in the stream is never processed,
refuting "the driver reports the failure and continues". -/
theorem C9_counterexample :
    runEpisodes netOk "2024-01-02" "dl" [epA, epC] (sCorrupt, [])
      = .error (Err.metadataUnreadable "dl/P/Episode 1.json") := by
  rfl

/-- C9 amended: a failed audio download does not abort the run (the error is
printed inside `download_url` and `download_episode` still returns
successfully, so the driver continues with the next episode), but an
unreadable or unparseable existing metadata file raises out of
`download_episode` and aborts the remaining episodes (see the
counterexample). -/
theorem C9_amended :
    ∀ (net : String → Option String) (today : String) (e : Episode) (dir : String)
      (s : State) (memo : FeedMemo) (rest : List Episode) (r : State × FeedMemo),
    (fsLookup s.fs (dir ++ "/" ++ escapeTitle e.podcastTitle ++ "/"
        ++ get_filename e.enclosureUrl e.title) = none →
      ∃ r2, download_episode net today e dir s memo = .ok r2)
    ∧ (download_episode net today e dir s memo = .ok r →
      runEpisodes net today dir (e :: rest) (s, memo) = runEpisodes net today dir rest r) := by
  intro net today e dir s memo rest r
  constructor
  · exact fun hf => download_episode_fresh_ok net today e dir s memo hf
  · intro hok
    simp [runEpisodes, hok]

/-- Witness for C9: the dead-source episode `C` still yields a successful
`download_episode` from a fresh archive, and a successful episode lets the
driver continue with the rest of the stream. -/
theorem C9_witness :
    (∃ r2, download_episode netFeedOnly "2024-01-02" epC "dl" sFresh [] = .ok r2)
    ∧ runEpisodes netOk "2024-01-02" "dl" [epA] (sColl, [])
        = runEpisodes netOk "2024-01-02" "dl" [] (sColl, []) :=
  ⟨(C9_amended netFeedOnly "2024-01-02" epC "dl" sFresh [] [] (sFresh, [])).1 rfl,
   (C9_amended netOk "2024-01-02" epA "dl" sColl [] [] (sColl, [])).2 (by rfl)⟩

/-- C7 counterexample: in the byte-identical collision run (episode `B`
against the on-disk `Episode 1.mp3` of episode `A`), the canonical path's
metadata is left unchanged (it still records episode `A`), and the metadata
that is written goes to `Episode 1_B.mp3.json` recording filename
`Episode 1_B.mp3` — a file that does not exist on disk.  This refutes "the
metadata (re)written for the canonical path reflects the final chosen
filename". -/
theorem C7_counterexample :
    c7state.isSome = true
    ∧ c7state.map (fun st => fsLookup st.fs "dl/P/Episode 1.json")
        = some (some (Content.meta epA "Episode 1.mp3"))
    ∧ c7state.map (fun st => fsLookup st.fs "dl/P/Episode 1_B.mp3.json")
        = some (some (Content.meta epB "Episode 1_B.mp3"))
    ∧ c7state.map (fun st => fsLookup st.fs "dl/P/Episode 1_B.mp3") = some none := by
  exact ⟨rfl, rfl, rfl, rfl⟩

/-- C7 amended: in the byte-identical collision scenario exactly one audio
file is retained (the disambiguated download is unlinked once and the
original path stays canonical with the original bytes), the episode is
marked; but the new metadata is written at the disambiguated json path
`Episode 1_B.mp3.json` and records the deleted disambiguated filename, while
the canonical path's own metadata file is not rewritten. -/
theorem C7_amended :
    c7state.map (fun st => fsLookup st.fs "dl/P/Episode 1.mp3")
      = some (some (Content.bytes "AUDIO"))
    ∧ c7state.map (fun st => fsLookup st.fs "dl/P/Episode 1_B.mp3") = some none
    ∧ c7state.map (fun st =>
        (st.events.filter (fun ev => ev = Ev.unlinkFile "dl/P/Episode 1_B.mp3")).length)
      = some 1
    ∧ c7state.map (fun st => st.db) = some (some (some ["A", "B"]))
    ∧ c7state.map (fun st => fsLookup st.fs "dl/P/Episode 1_B.mp3.json")
        = some (some (Content.meta epB "Episode 1_B.mp3")) := by
  exact ⟨rfl, rfl, rfl, rfl, rfl⟩

/-- C6: the disambiguation `filename.replace(".mp3", "_<id>.mp3")` is a
no-op for any non-`.mp3` extension, so for an `.m4a` collision between
distinct episodes the "disambiguated" path equals the occupied path; the
download overwrites the original file, the self-comparison then reports a
duplicate and the file is deleted.  The run ends with no audio file at the
candidate path, no disambiguated file, and metadata naming a file that does
not exist — instead of both files remaining as the claim requires. -/
theorem C6_code_behavior :
    c6state.isSome = true
    ∧ strReplace "Episode 1.m4a" ".mp3" ("_" ++ "B" ++ ".mp3") = "Episode 1.m4a"
    ∧ c6state.map (fun st => fsLookup st.fs "dl/P/Episode 1.m4a") = some none
    ∧ c6state.map (fun st => fsLookup st.fs "dl/P/Episode 1_B.m4a") = some none
    ∧ c6state.map (fun st => fsLookup st.fs "dl/P/Episode 1.m4a.json")
        = some (some (Content.meta epB4 "Episode 1.m4a"))
    ∧ c6state.map (fun st => st.db) = some (some (some ["A", "B"])) := by
  exact ⟨rfl, rfl, rfl, rfl, rfl, rfl⟩

/-- C8: one invocation of the feed snapshot archiver on a snapshot list with
no byte-identical consecutive snapshots (all existing snapshot dates before
today) preserves that invariant; the result is either the old list unchanged
or the old list with today's snapshot appended, and the unchanged case can
only happen because the new content equals the last retained snapshot — so
no genuinely distinct historical version is ever deleted.  Archiving the
same content on three days leaves exactly one retained snapshot. -/
theorem C8_snapshot_pruning :
    ∀ (snaps : List (String × String)) (today c d1 d2 d3 cc : String),
    List.Chain' (fun a b => a.2 ≠ b.2) snaps →
    (∀ p ∈ snaps, strLt p.1 today = true) →
    strLt d1 d2 = true → strLt d2 d3 = true → strLt d1 d3 = true →
    List.Chain' (fun a b => a.2 ≠ b.2) (archiveDay snaps today c)
    ∧ (archiveDay snaps today c = snaps ∨ archiveDay snaps today c = snaps ++ [(today, c)])
    ∧ (archiveDay snaps today c = snaps → (snaps.getLast?).map Prod.snd = some c)
    ∧ archiveDay (archiveDay (archiveDay [] d1 cc) d2 cc) d3 cc = [(d1, cc)] := by
  intro snaps today c d1 d2 d3 cc hc hlt h12 h23 h13
  have hany : snaps.any (fun p => p.1 = today) = false := snaps_any_today_false snaps today hlt
  have harch : archiveDay snaps today c = pruneSnaps (snaps ++ [(today, c)]) := by
    rw [archiveDay, hany]
    simp [insertSnap_append snaps (today, c) hlt]
  have h3day : archiveDay (archiveDay (archiveDay [] d1 cc) d2 cc) d3 cc = [(d1, cc)] := by
    have s1 : archiveDay ([] : List (String × String)) d1 cc = [(d1, cc)] := rfl
    have s2 : archiveDay [(d1, cc)] d2 cc = [(d1, cc)] := by
      have hany2 : [(d1, cc)].any (fun p => p.1 = d2) = false := by
        simp [strLt_ne d1 d2 h12]
      rw [archiveDay, hany2]
      simp only [Bool.false_eq_true, if_false]
      rw [show insertSnap (d2, cc) [(d1, cc)] = [(d1, cc)] ++ [(d2, cc)] from
        insertSnap_append [(d1, cc)] (d2, cc) (by simpa using h12)]
      exact pruneSnaps_concat_of_eq [(d1, cc)] (d2, cc) (d1, cc)
        (List.chain'_singleton _) rfl rfl
    have s3 : archiveDay [(d1, cc)] d3 cc = [(d1, cc)] := by
      have hany3 : [(d1, cc)].any (fun p => p.1 = d3) = false := by
        simp [strLt_ne d1 d3 h13]
      rw [archiveDay, hany3]
      simp only [Bool.false_eq_true, if_false]
      rw [show insertSnap (d3, cc) [(d1, cc)] = [(d1, cc)] ++ [(d3, cc)] from
        insertSnap_append [(d1, cc)] (d3, cc) (by simpa using h13)]
      exact pruneSnaps_concat_of_eq [(d1, cc)] (d3, cc) (d1, cc)
        (List.chain'_singleton _) rfl rfl
    rw [s1, s2, s3]
  cases hlast : snaps.getLast? with
  | none =>
    have hnil : snaps = [] := List.getLast?_eq_none_iff.mp hlast
    subst hnil
    have h1 : archiveDay [] today c = [] ++ [(today, c)] := by rw [harch]; rfl
    refine ⟨by rw [h1]; exact List.chain'_singleton _, Or.inr h1, ?_, h3day⟩
    intro habs
    rw [habs] at h1
    exact absurd (congrArg List.length h1) (by simp)
  | some a =>
    by_cases heq : a.2 = c
    · have h1 : archiveDay snaps today c = snaps := by
        rw [harch]
        exact pruneSnaps_concat_of_eq snaps (today, c) a hc hlast heq
      exact ⟨by rw [h1]; exact hc, Or.inl h1, fun _ => by simp [heq], h3day⟩
    · have h1 : archiveDay snaps today c = snaps ++ [(today, c)] := by
        rw [harch]
        refine pruneSnaps_concat_of_ne snaps (today, c) ?_
        intro a' ha'
        rw [hlast] at ha'
        have haa : a' = a := (Option.some.inj ha').symm
        rw [haa]
        exact heq
      refine ⟨?_, Or.inr h1, ?_, h3day⟩
      · rw [h1]
        refine List.Chain'.append hc (List.chain'_singleton _) ?_
        intro x hx y hy
        simp only [Option.mem_def] at hx hy
        rw [hlast] at hx
        have hxa : x = a := Option.some.inj hx.symm
        have hyc : y = (today, c) := Option.some.inj hy.symm
        rw [hxa, hyc]
        exact heq
      · intro habs
        rw [habs] at h1
        have := congrArg List.length h1
        simp at this

/-- Witness for C8 at a concrete one-snapshot archive and concrete dates. -/
theorem C8_witness :
    archiveDay (archiveDay (archiveDay ([] : List (String × String)) "2024-01-01" "F")
      "2024-01-02" "F") "2024-01-03" "F" = [("2024-01-01", "F")] :=
  (C8_snapshot_pruning [("2023-12-31", "G")] "2024-01-01" "F" "2024-01-01" "2024-01-02"
    "2024-01-03" "F" (by simp) (by decide) (by decide) (by decide) (by decide)).2.2.2

/-- C2: when the destination is not already present, `download_file` streams
to a uniquely-named temporary file in the same directory as the destination
(`<path>.<uuid>.tmp`), and renames it into place only after the entire body
has been written without error; an error response surfaces before anything
is written, and a mid-stream failure leaves the partial temporary file
abandoned and surfaces the error — in every failure case no file (partial or
otherwise) appears at the destination path. -/
theorem C2_atomic_fetch :
    ∀ (net : String → AtomicDownload.FetchResult) (url path tok : String)
      (fs : List (String × String)),
    Overcast.fsLookup fs path = none →
    ('/' : Char) ∉ tok.data →
    Overcast.fsLookup fs (path ++ "." ++ tok ++ ".tmp") = none →
    (AtomicDownload.dirname (path ++ "." ++ tok ++ ".tmp") = AtomicDownload.dirname path
      ∧ path ++ "." ++ tok ++ ".tmp" ≠ path)
    ∧ (∀ chunks, net url = .success chunks →
        AtomicDownload.download_file net url path tok fs
          = (Overcast.fsWrite fs path (String.join chunks), .ok path)
        ∧ Overcast.fsLookup (AtomicDownload.download_file net url path tok fs).1 path
            = some (String.join chunks)
        ∧ Overcast.fsLookup (AtomicDownload.download_file net url path tok fs).1
            (path ++ "." ++ tok ++ ".tmp") = none)
    ∧ (∀ code, net url = .statusFail code →
        (AtomicDownload.download_file net url path tok fs).2
            = .error (.httpxStatus code)
        ∧ (AtomicDownload.download_file net url path tok fs).1 = fs
        ∧ Overcast.fsLookup (AtomicDownload.download_file net url path tok fs).1 path
            = none)
    ∧ (∀ written e2, net url = .interrupted written e2 →
        (AtomicDownload.download_file net url path tok fs).2 = .error e2
        ∧ Overcast.fsLookup (AtomicDownload.download_file net url path tok fs).1 path
            = none
        ∧ Overcast.fsLookup (AtomicDownload.download_file net url path tok fs).1
            (path ++ "." ++ tok ++ ".tmp") = some (String.join written)) := by
  intro net url path tok fs hpath htok htmp
  have hne : path ++ "." ++ tok ++ ".tmp" ≠ path := by
    intro he
    have hlen := congrArg String.length he
    rw [String.length_append, String.length_append, String.length_append] at hlen
    have h1 : (".".length : Nat) = 1 := rfl
    have h4 : (".tmp".length : Nat) = 4 := rfl
    omega
  refine ⟨⟨?_, hne⟩, ?_, ?_, ?_⟩
  · have hd1 : AtomicDownload.dirname (path ++ "." ++ tok ++ ".tmp")
        = AtomicDownload.dirname (path ++ "." ++ tok) :=
      AtomicDownload.dirname_append_of_no_slash _ ".tmp" (by decide)
    have hd2 : AtomicDownload.dirname (path ++ "." ++ tok)
        = AtomicDownload.dirname (path ++ ".") :=
      AtomicDownload.dirname_append_of_no_slash _ tok htok
    have hd3 : AtomicDownload.dirname (path ++ ".") = AtomicDownload.dirname path :=
      AtomicDownload.dirname_append_of_no_slash _ "." (by decide)
    rw [hd1, hd2, hd3]
  · intro chunks hnet
    have heq : AtomicDownload.download_file net url path tok fs
        = (Overcast.fsWrite fs path (String.join chunks), .ok path) := by
      rw [AtomicDownload.download_file, hpath]
      simp only [Option.isSome_none, Bool.false_eq_true, if_false]
      rw [hnet]
      simp only
      rw [Overcast.fsErase_fsWrite_of_none fs (path ++ "." ++ tok ++ ".tmp")
        (String.join chunks) htmp]
    refine ⟨heq, ?_, ?_⟩
    · rw [heq]
      rw [Overcast.fsLookup_fsWrite]
      simp
    · rw [heq]
      show Overcast.fsLookup (Overcast.fsWrite fs path (String.join chunks))
        (path ++ "." ++ tok ++ ".tmp") = none
      rw [Overcast.fsLookup_fsWrite]
      rw [if_neg (fun hc => hne hc.symm)]
      exact htmp
  · intro code hnet
    have heq : AtomicDownload.download_file net url path tok fs
        = (fs, .error (.httpxStatus code)) := by
      rw [AtomicDownload.download_file, hpath]
      simp only [Option.isSome_none, Bool.false_eq_true, if_false]
      rw [hnet]
    refine ⟨by rw [heq], by rw [heq], by rw [heq]; exact hpath⟩
  · intro written e2 hnet
    have heq : AtomicDownload.download_file net url path tok fs
        = (Overcast.fsWrite fs (path ++ "." ++ tok ++ ".tmp") (String.join written),
           .error e2) := by
      rw [AtomicDownload.download_file, hpath]
      simp only [Option.isSome_none, Bool.false_eq_true, if_false]
      rw [hnet]
    refine ⟨by rw [heq], ?_, ?_⟩
    · rw [heq]
      show Overcast.fsLookup (Overcast.fsWrite fs (path ++ "." ++ tok ++ ".tmp")
        (String.join written)) path = none
      rw [Overcast.fsLookup_fsWrite]
      rw [if_neg hne]
      exact hpath
    · rw [heq]
      show Overcast.fsLookup (Overcast.fsWrite fs (path ++ "." ++ tok ++ ".tmp")
        (String.join written)) (path ++ "." ++ tok ++ ".tmp") = some (String.join written)
      rw [Overcast.fsLookup_fsWrite]
      simp

/-- Witness for C2: a concrete successful streaming download and its atomic
rename, plus the same-directory property of the temporary name. -/
theorem C2_witness :
    Overcast.fsLookup (AtomicDownload.download_file
      (fun _ => AtomicDownload.FetchResult.success ["ab", "cd"]) "u" "d/f.mp3" "t0" []).1
      "d/f.mp3" = some "abcd"
    ∧ AtomicDownload.dirname ("d/f.mp3" ++ "." ++ "t0" ++ ".tmp")
        = AtomicDownload.dirname "d/f.mp3" := by
  have h := C2_atomic_fetch (fun _ => AtomicDownload.FetchResult.success ["ab", "cd"])
    "u" "d/f.mp3" "t0" [] rfl (by decide) rfl
  exact ⟨(h.2.1 ["ab", "cd"] rfl).2.1, h.1.1⟩

/-- C5 counterexample: with a transport that answers 404 on every attempt,
the decorated `download_file` makes all 10 attempts before surfacing the
error — `httpx.HTTPStatusError` (raised by `raise_for_status` for a 404) is
a subclass of `httpx.HTTPError` and is therefore retried, refuting "never
retries on an HTTP 404 response, which surfaces immediately". -/
theorem C5_counterexample :
    (AtomicDownload.download_file_retrying (fun _ _ => .statusFail 404) (fun _ => "t")
      "u" "p" []).attempts = 10
    ∧ (AtomicDownload.download_file_retrying (fun _ _ => .statusFail 404) (fun _ => "t")
        "u" "p" []).result = .error (.httpxStatus 404)
    ∧ (10 : Nat) ≠ 1 := by
  exact ⟨rfl, rfl, by decide⟩

/-- C5 amended: the retry policy makes at most 10 attempts with a fixed
60-second wait between attempts (total wait 60·(attempts−1)); an exception
that is not an httpx/urllib3 HTTP error (for example a local I/O error)
surfaces immediately after one attempt, and a retry only ever happens when
an attempt raised a retryable (httpx/urllib3) error; but an HTTP 404, being
an `httpx.HTTPStatusError`, is retried the full 10 attempts before
surfacing. -/
theorem C5_amended :
    ∀ (net : Nat → String → AtomicDownload.FetchResult) (tokens : Nat → String)
      (url path : String) (fs : List (String × String)),
    (AtomicDownload.download_file_retrying net tokens url path fs).attempts ≤ 10
    ∧ (AtomicDownload.download_file_retrying net tokens url path fs).waited
        = 60 * ((AtomicDownload.download_file_retrying net tokens url path fs).attempts - 1)
    ∧ (∀ ws e2, AtomicDownload.retryable e2 = false → net 0 url = .interrupted ws e2 →
        Overcast.fsLookup fs path = none →
        (AtomicDownload.download_file_retrying net tokens url path fs).result = .error e2
        ∧ (AtomicDownload.download_file_retrying net tokens url path fs).attempts = 1)
    ∧ ((∀ i, net i url = .statusFail 404) → Overcast.fsLookup fs path = none →
        (AtomicDownload.download_file_retrying net tokens url path fs).attempts = 10
        ∧ (AtomicDownload.download_file_retrying net tokens url path fs).result
            = .error (.httpxStatus 404)
        ∧ (AtomicDownload.download_file_retrying net tokens url path fs).waited = 540)
    ∧ (1 < (AtomicDownload.download_file_retrying net tokens url path fs).attempts →
        ∃ e2, AtomicDownload.retryable e2 = true
          ∧ (AtomicDownload.download_file (net 0) url path (tokens 0) fs).2 = .error e2) := by
  intro net tokens url path fs
  refine ⟨?_, ?_, ?_, ?_, ?_⟩
  · have h := AtomicDownload.retryRec_attempts_le net tokens url path 10 0 0 fs
    simpa using h
  · exact AtomicDownload.retryRec_waited net tokens url path 10 0 fs (by omega)
  · intro ws e2 hre h0 hp
    have hdf : AtomicDownload.download_file (net 0) url path (tokens 0) fs
        = (Overcast.fsWrite fs (path ++ "." ++ tokens 0 ++ ".tmp") (String.join ws),
           .error e2) := by
      rw [AtomicDownload.download_file, hp]
      simp only [Option.isSome_none, Bool.false_eq_true, if_false]
      rw [h0]
    have heq : AtomicDownload.download_file_retrying net tokens url path fs
        = { fs := Overcast.fsWrite fs (path ++ "." ++ tokens 0 ++ ".tmp")
              (String.join ws),
            result := .error e2, attempts := 1, waited := 0 } := by
      rw [AtomicDownload.download_file_retrying]
      simp only [AtomicDownload.retryRec, hdf]
      rw [if_neg (by rw [hre]; exact Bool.false_ne_true)]
    exact ⟨by rw [heq], by rw [heq]⟩
  · intro hnet hp
    have h := AtomicDownload.retryRec_const_404 net tokens url path hnet 10 0 0 fs
      (by omega) hp
    rw [show AtomicDownload.download_file_retrying net tokens url path fs
      = AtomicDownload.retryRec net tokens url path 10 0 0 fs from rfl, h]
    exact ⟨rfl, rfl, rfl⟩
  · intro hgt
    cases hdd : AtomicDownload.download_file (net 0) url path (tokens 0) fs with
    | mk fs1 res =>
      cases res with
      | ok p =>
        exfalso
        have heq : (AtomicDownload.download_file_retrying net tokens url path fs).attempts
            = 1 := by
          rw [AtomicDownload.download_file_retrying]
          simp only [AtomicDownload.retryRec]
          rw [hdd]
        rw [heq] at hgt
        omega
      | error e2 =>
        by_cases hre : AtomicDownload.retryable e2 = true
        · exact ⟨e2, hre, rfl⟩
        · exfalso
          have hre' : AtomicDownload.retryable e2 = false := by
            cases hb : AtomicDownload.retryable e2
            · rfl
            · exact absurd hb hre
          have heq : (AtomicDownload.download_file_retrying net tokens url path
              fs).attempts = 1 := by
            rw [AtomicDownload.download_file_retrying]
            simp only [AtomicDownload.retryRec]
            rw [hdd]
            dsimp only
            rw [hre']
            simp only [Bool.false_eq_true, if_false]
          rw [heq] at hgt
          omega

/-- Witness for C5 at the constant-404 transport. -/
theorem C5_witness :
    (AtomicDownload.download_file_retrying (fun _ _ => .statusFail 404) (fun _ => "t2")
      "u2" "p2" []).attempts = 10
    ∧ (AtomicDownload.download_file_retrying (fun _ _ => .statusFail 404) (fun _ => "t2")
        "u2" "p2" []).waited = 540 := by
  have h := C5_amended (fun _ _ => .statusFail 404) (fun _ => "t2") "u2" "p2" []
  exact ⟨(h.2.2.2.1 (fun i => rfl) rfl).1, (h.2.2.2.1 (fun i => rfl) rfl).2.2⟩
